import Mathlib

/-!
Verification of the JamHacks judging scheduler (`src/scheduler/scheduler.py`).

The scheduler is embedded shallowly:
* times are natural numbers counting minutes (Python `datetime` values are only
  parsed once, shifted by `timedelta(minutes=...)` and compared, so a minute
  count is a faithful representation);
* Python dicts whose insertion order matters are association lists;
* Python exceptions (`ValueError` from `strptime`, `ZeroDivisionError` from
  `// num_rooms`) are an `Except` error.
-/

namespace JudgingSched

/-- A team record as produced by the data loader: `{"id": ..., "name": ...,
"categories": [...]}`. -/
structure Team where
  id : Nat
  name : String
  categories : List String
deriving DecidableEq, Repr, Inhabited

/-- A schedule entry as built by `scheduler.py` (`schedule_entry` dicts). -/
structure Session where
  team_id : Nat
  team_name : String
  type : String
  categories : List String
  start_time : Nat
  end_time : Nat
deriving DecidableEq, Repr, Inhabited

/-- An entry of `team_schedules` (the per-team booking ledger):
`{"start_time": ..., "end_time": ..., "type": ...}`. -/
structure Booking where
  start_time : Nat
  end_time : Nat
  type : String
deriving DecidableEq, Repr, Inhabited

/-- Source `team_schedules`: dict from team id to its list of bookings, as an
association list in insertion order. -/
abbrev Ledger := List (Nat × List Booking)

/-- Source `JUDGING_DURATION = 8` from `scheduler.py`. -/
def JUDGING_DURATION : Nat := 8

/-- Source `MLH_CATEGORIES` from `scheduler.py`. -/
def MLH_CATEGORIES : List String := ["Best Use of MongoDB", "Best GenAI", "Best .tech"]

/-- Source `any(cat in MLH_CATEGORIES for cat in team["categories"])`. -/
def hasMLH (t : Team) : Bool := t.categories.any (fun c => MLH_CATEGORIES.contains c)

/-- Source `mlh_teams` in `generate_general_schedule`. -/
def mlhTeams (teams : List Team) : List Team := teams.filter hasMLH

/-- Source `non_mlh_teams` in `generate_general_schedule`. -/
def nonMlhTeams (teams : List Team) : List Team := teams.filter (fun t => !hasMLH t)

/-- Source `get_categories_from_teams`: the set of non-MLH labels of all teams,
sorted.  (Python builds a `set` and applies `sorted`; collecting the labels,
removing duplicates and sorting yields the same list.) -/
def get_categories_from_teams (teams : List Team) : List String :=
  List.insertionSort (· ≤ ·)
    ((teams.map (fun t => t.categories.filter (fun c => !MLH_CATEGORIES.contains c))).flatten.dedup)

/-- Lookup in an association list keyed by room number (Python `dict[k]` with
a default for the model). -/
def assocGetD (A : List (Nat × α)) (k : Nat) (d : α) : α :=
  match A with
  | [] => d
  | p :: rest => if p.1 = k then p.2 else assocGetD rest k d

/-- Source `dict[k] = v`: overwrite the binding if present, else append it (Python
dict insertion order). -/
def assocSet (A : List (Nat × α)) (k : Nat) (v : α) : List (Nat × α) :=
  match A with
  | [] => [(k, v)]
  | p :: rest => if p.1 = k then (k, v) :: rest else p :: assocSet rest k v

/-- Source `room_assignments = {i + 1: [] for i in range(num_rooms)}`. -/
def initRooms (n : Nat) : List (Nat × List Team) :=
  (List.range n).map (fun i => (i + 1, ([] : List Team)))

/-- The allocation loop of the `len(mlh_teams) >= 6` branch: rooms 1..5 get
consecutive slices of `non_mlh_teams`, the first `remaining` rooms one extra
team. -/
def distribute1 (A : List (Nat × List Team)) (rooms : List Nat) (pool : List Team)
    (q r i : Nat) : List (Nat × List Team) :=
  match rooms with
  | [] => A
  | room :: rest =>
    let count := q + (if i < r then 1 else 0)
    distribute1 (assocSet A room (pool.take count)) rest (pool.drop count) q r (i + 1)

/-- The allocation loop of the `else` branch: rooms `1..num_rooms` get
consecutive slices of `non_mlh_teams` (extending any existing content), but a
room 6 that already holds MLH teams is skipped without reallocating its
share. -/
def distribute2 (A : List (Nat × List Team)) (rooms : List Nat) (pool : List Team)
    (base rem : Nat) : List (Nat × List Team) :=
  match rooms with
  | [] => A
  | room :: rest =>
    if room = 6 ∧ assocGetD A 6 ([] : List Team) ≠ [] then
      distribute2 A rest pool base rem
    else
      let count := base + (if 0 < rem then 1 else 0)
      let A2 := assocSet A room (assocGetD A room ([] : List Team) ++ pool.take count)
      distribute2 A2 rest (pool.drop count) base (rem - (if 0 < rem then 1 else 0))

/-- Errors a run can raise: `ValueError` from `strptime`, and the
`ZeroDivisionError` from `total_to_distribute // num_rooms`. -/
inductive SchedErr where
  | parseError : SchedErr
  | zeroDivision : SchedErr
deriving DecidableEq, Repr

/-- The room-assignment part of `generate_general_schedule` (lines 52-108):
partition into MLH/non-MLH teams, reserve room 6 for MLH teams, distribute the
rest.  Python raises `ZeroDivisionError` at `// num_rooms` exactly when the
`else` branch runs with `num_rooms == 0`. -/
def roomAssignments (teams : List Team) (num_rooms : Nat) :
    Except SchedErr (List (Nat × List Team)) :=
  let mlh := mlhTeams teams
  let nonMlh := nonMlhTeams teams
  if 6 ≤ mlh.length then
    Except.ok (distribute1 (assocSet (initRooms num_rooms) 6 mlh) [1, 2, 3, 4, 5]
      nonMlh (nonMlh.length / 5) (nonMlh.length % 5) 0)
  else
    if num_rooms = 0 then Except.error SchedErr.zeroDivision
    else
      Except.ok (distribute2 (assocSet (initRooms num_rooms) 6 mlh) (List.range' 1 num_rooms)
        nonMlh (nonMlh.length / num_rooms) (nonMlh.length % num_rooms))

/-- The per-room scheduling loop of `generate_general_schedule` (lines
115-142): back-to-back sessions from `start_time`, each of length
`JUDGING_DURATION`, separated by `buffer_minutes`. -/
def layOut (ts : List Team) (cur buffer : Nat) : List Session :=
  match ts with
  | [] => []
  | t :: rest =>
    { team_id := t.id, team_name := t.name, type := "General", categories := t.categories,
      start_time := cur, end_time := cur + JUDGING_DURATION }
      :: layOut rest (cur + JUDGING_DURATION + buffer) buffer

/-- Source `team_schedules[team_id]`, defaulting to the empty list for an absent
key. -/
def ledgerGet (L : Ledger) (id : Nat) : List Booking :=
  match L with
  | [] => []
  | p :: rest => if p.1 = id then p.2 else ledgerGet rest id

/-- Source `team_schedules.setdefault(id, []).append(bk)` (lines 135-139 and
250-255). -/
def ledgerAdd (L : Ledger) (id : Nat) (bk : Booking) : Ledger :=
  match L with
  | [] => [(id, [bk])]
  | p :: rest => if p.1 = id then (p.1, p.2 ++ [bk]) :: rest else p :: ledgerAdd rest id bk

/-- Record one booking per session, in session order. -/
def foldAddLedger (L : Ledger) (ss : List Session) : Ledger :=
  ss.foldl (fun acc s =>
    ledgerAdd acc s.team_id { start_time := s.start_time, end_time := s.end_time, type := s.type }) L

/-- Source `generate_general_schedule` (lines 35-152): returns the room schedule, the
latest end time and the booking ledger. -/
def generate_general_schedule (teams : List Team) (start_time buffer_minutes num_rooms : Nat) :
    Except SchedErr (List (Nat × List Session) × Nat × Ledger) :=
  match roomAssignments teams num_rooms with
  | Except.error e => Except.error e
  | Except.ok A =>
    let schedule := A.map (fun p => (p.1, layOut p.2 start_time buffer_minutes))
    let team_schedules := foldAddLedger [] (schedule.map Prod.snd).flatten
    let ends := schedule.map (fun p =>
      match p.2.getLast? with
      | some s => s.end_time
      | none => start_time)
    let latest := ends.foldl max start_time
    Except.ok (schedule, latest, team_schedules)

/-- The conflict test of lines 215-221 / 286-292: with `proposed_end =
current_time + JUDGING_DURATION`, conflict iff `current_time <= existing.end +
buffer` and `proposed_end + buffer >= existing.start`. -/
def conflictB (t buffer : Nat) (bk : Booking) : Bool :=
  decide (t ≤ bk.end_time + buffer) && decide (bk.start_time ≤ t + JUDGING_DURATION + buffer)

/-- The conflict-resolution scan of lines 203-232 / 274-303: one pass over the
team's bookings, remembering whether any conflict was seen and the largest
`existing.end + buffer` among the conflicting bookings; the candidate start
moves there. -/
def resolveStart (t buffer : Nat) (bks : List Booking) : Nat :=
  let res := bks.foldl
    (fun (acc : Bool × Nat) bk =>
      if conflictB t buffer bk then
        (true, if acc.2 < bk.end_time + buffer then bk.end_time + buffer else acc.2)
      else acc)
    (false, t)
  if res.1 then res.2 else t

/-- Source `[cat for cat in team["categories"] if cat in MLH_CATEGORIES]`. -/
def mlhCatsOf (t : Team) : List String := t.categories.filter (fun c => MLH_CATEGORIES.contains c)

/-- The per-team scheduling loop shared by the MLH block (lines 202-258) and
the per-category block (lines 273-327): resolve conflicts against the ledger,
emit the session, record the booking, advance the cursor past
`end + buffer`. -/
def scheduleTeamsLoop (ty : String) (catsOf : Team → List String) (ts : List Team)
    (t : Nat) (ledger : Ledger) (buffer : Nat) : List Session × Ledger × Nat :=
  match ts with
  | [] => ([], ledger, t)
  | team :: rest =>
    let s := resolveStart t buffer (ledgerGet ledger team.id)
    let e := s + JUDGING_DURATION
    let sess : Session :=
      { team_id := team.id, team_name := team.name, type := ty, categories := catsOf team,
        start_time := s, end_time := e }
    let ledger2 := ledgerAdd ledger team.id { start_time := s, end_time := e, type := ty }
    let r := scheduleTeamsLoop ty catsOf rest (e + buffer) ledger2 buffer
    (sess :: r.1, r.2.1, r.2.2)

/-- Source `category_teams[c]` for a non-MLH category `c` (lines 185-193): one entry
per occurrence of `c` in a team's category list, in team order. -/
def categoryTeams (teams : List Team) (c : String) : List Team :=
  (teams.map (fun t => (t.categories.filter (fun c2 => c2 == c)).map (fun _ => t))).flatten

/-- Source `current_start_time` update of lines 260-264 / 329-333: the last session's
end plus the buffer, unchanged if the track is empty. -/
def nextCursor (ss : List Session) (t buffer : Nat) : Nat :=
  match ss.getLast? with
  | some s => s.end_time + buffer
  | none => t

/-- The `for category in all_categories` loop of lines 267-333. -/
def runCats (teams : List Team) (cats : List String) (t : Nat) (ledger : Ledger)
    (buffer : Nat) : List (String × List Session) × Ledger :=
  match cats with
  | [] => ([], ledger)
  | c :: rest =>
    let ct := categoryTeams teams c
    if ct.isEmpty then
      let r := runCats teams rest t ledger buffer
      ((c, []) :: r.1, r.2)
    else
      let r1 := scheduleTeamsLoop c (fun _ => [c]) ct t ledger buffer
      let r2 := runCats teams rest (nextCursor r1.1 t buffer) r1.2.1 buffer
      ((c, r1.1) :: r2.1, r2.2)

/-- Source `generate_category_schedules` (lines 155-335): the MLH aggregate track
first, then every non-MLH category in the sorted order of
`get_categories_from_teams`, all on one serialized timeline.  Also returns the
final (mutated) ledger. -/
def generate_category_schedules (teams : List Team) (start_time : Nat) (ledger : Ledger)
    (buffer_minutes : Nat) : List (String × List Session) × Ledger :=
  let cats := get_categories_from_teams teams
  let mlh := mlhTeams teams
  let rm :=
    if mlh.isEmpty then (([] : List Session), ledger, start_time)
    else
      let r := scheduleTeamsLoop "MLH" mlhCatsOf mlh start_time ledger buffer_minutes
      (r.1, r.2.1, nextCursor r.1 start_time buffer_minutes)
  let rc := runCats teams cats rm.2.2 rm.2.1 buffer_minutes
  (("MLH", rm.1) :: rc.1, rc.2)

/-- Source `y % 4 == 0 and (y % 100 != 0 or y % 400 == 0)`. -/
def isLeapYear (y : Nat) : Bool :=
  (decide (y % 4 = 0) && decide (y % 100 ≠ 0)) || decide (y % 400 = 0)

/-- Days in a Gregorian month. -/
def daysInMonth (y m : Nat) : Nat :=
  if m = 2 then (if isLeapYear y then 29 else 28)
  else if m = 4 ∨ m = 6 ∨ m = 9 ∨ m = 11 then 30
  else 31

/-- Days in the months of year `y` that precede month `m`. -/
def daysBeforeMonth (y m : Nat) : Nat :=
  (List.range (m - 1)).foldl (fun acc i => acc + daysInMonth y (i + 1)) 0

/-- Days in the years before year `y` (proleptic Gregorian). -/
def daysBeforeYear (y : Nat) : Nat :=
  y * 365 + (y - 1) / 4 - (y - 1) / 100 + (y - 1) / 400

def digitVal (c : Char) : Nat := c.toNat - '0'.toNat

/-- Model of `datetime.strptime(s, "%Y-%m-%d %H:%M")`, returning minutes on a
linear time axis (the scheduler only ever adds minutes to the parsed value and
compares the results, so any consistent minute count is faithful). -/
def parseStartTime (s : String) : Option Nat :=
  match s.toList with
  | [y1, y2, y3, y4, c1, m1, m2, c2, d1, d2, c3, h1, h2, c4, n1, n2] =>
    if c1 = '-' ∧ c2 = '-' ∧ c3 = ' ' ∧ c4 = ':' ∧
        y1.isDigit = true ∧ y2.isDigit = true ∧ y3.isDigit = true ∧ y4.isDigit = true ∧
        m1.isDigit = true ∧ m2.isDigit = true ∧ d1.isDigit = true ∧ d2.isDigit = true ∧
        h1.isDigit = true ∧ h2.isDigit = true ∧ n1.isDigit = true ∧ n2.isDigit = true then
      let y := ((digitVal y1 * 10 + digitVal y2) * 10 + digitVal y3) * 10 + digitVal y4
      let mo := digitVal m1 * 10 + digitVal m2
      let d := digitVal d1 * 10 + digitVal d2
      let h := digitVal h1 * 10 + digitVal h2
      let mi := digitVal n1 * 10 + digitVal n2
      if 1 ≤ mo ∧ mo ≤ 12 ∧ 1 ≤ d ∧ d ≤ daysInMonth y mo ∧ h ≤ 23 ∧ mi ≤ 59 then
        some ((daysBeforeYear y + daysBeforeMonth y mo + (d - 1)) * 1440 + h * 60 + mi)
      else none
    else none
  | _ => none

/-- The combined result `{"general": ..., "categories": ...}`. -/
structure Schedule where
  general : List (Nat × List Session)
  categories : List (String × List Session)
deriving DecidableEq, Repr, Inhabited

/-- The `stats` dict of `generate_schedule`. -/
structure Stats where
  start_time : Nat
  general_end_time : Nat
  end_time : Nat
  total_teams : Nat
  general_rooms : List (Nat × Nat)
  categories : List String
deriving DecidableEq, Repr, Inhabited

/-- Source `generate_schedule` (lines 338-389). -/
def generate_schedule (teams : List Team) (start_time_str : String)
    (buffer_minutes num_rooms : Nat) : Except SchedErr (Schedule × Stats) :=
  match parseStartTime start_time_str with
  | none => Except.error SchedErr.parseError
  | some t0 =>
    match generate_general_schedule teams t0 buffer_minutes num_rooms with
    | Except.error e => Except.error e
    | Except.ok g =>
      let general := g.1
      let generalEnd := g.2.1
      let ledger := g.2.2
      let cs := generate_category_schedules teams (generalEnd + 30) ledger buffer_minutes
      let latest := cs.1.foldl
        (fun acc p =>
          match p.2.getLast? with
          | some s => if acc < s.end_time then s.end_time else acc
          | none => acc) generalEnd
      let stats : Stats :=
        { start_time := t0, general_end_time := generalEnd, end_time := latest,
          total_teams := teams.length,
          general_rooms := general.map (fun p => (p.1, p.2.length)),
          categories := cs.1.map Prod.fst }
      Except.ok ({ general := general, categories := cs.1 }, stats)

/-- All sessions of a schedule, room tracks first, in track order. -/
def allSessions (sched : Schedule) : List Session :=
  (sched.general.map Prod.snd).flatten ++ (sched.categories.map Prod.snd).flatten

/-- The `(start_time, end_time)` interval of a session. -/
def seS (s : Session) : Nat × Nat := (s.start_time, s.end_time)

/-- The `(start_time, end_time)` interval of a booking. -/
def seB (bk : Booking) : Nat × Nat := (bk.start_time, bk.end_time)

/-- Two intervals are buffer-separated: one ends, plus the buffer, no later
than the other starts.  This is "the buffer-padded intervals do not overlap":
padding an interval by `buffer` and requiring it to stay clear of the other
interval is exactly a gap of at least `buffer` between them. -/
def SepP (buffer : Nat) (x y : Nat × Nat) : Prop :=
  x.2 + buffer ≤ y.1 ∨ y.2 + buffer ≤ x.1

/-- Team ids are pairwise distinct (the input contract of the core). -/
def uniqueIds (teams : List Team) : Prop := (teams.map Team.id).Nodup

/-! ### Ledger lemmas -/

theorem ledgerGet_add_self (L : Ledger) (id : Nat) (bk : Booking) :
    ledgerGet (ledgerAdd L id bk) id = ledgerGet L id ++ [bk] := by
  induction L with
  | nil => simp [ledgerAdd, ledgerGet]
  | cons p rest ih =>
    by_cases h : p.1 = id
    · simp [ledgerAdd, ledgerGet, h]
    · simp [ledgerAdd, ledgerGet, h, ih]

theorem ledgerGet_add_ne (L : Ledger) (id id2 : Nat) (bk : Booking) (h : id2 ≠ id) :
    ledgerGet (ledgerAdd L id bk) id2 = ledgerGet L id2 := by
  have hne : ¬ id = id2 := fun hh => h hh.symm
  induction L with
  | nil => simp [ledgerAdd, ledgerGet, hne]
  | cons p rest ih =>
    by_cases hp : p.1 = id
    · have hp2 : ¬ p.1 = id2 := by rw [hp]; exact hne
      simp [ledgerAdd, ledgerGet, hp, hp2, hne]
    · by_cases hq : p.1 = id2 <;> simp [ledgerAdd, ledgerGet, hp, hq, hne, h, ih]

theorem foldAddLedger_append (L : Ledger) (a b : List Session) :
    foldAddLedger L (a ++ b) = foldAddLedger (foldAddLedger L a) b := by
  simp [foldAddLedger, List.foldl_append]

theorem foldAddLedger_get (ss : List Session) : ∀ (L : Ledger) (id : Nat),
    (ledgerGet (foldAddLedger L ss) id).map seB =
      (ledgerGet L id).map seB ++ (ss.filter (fun s => s.team_id = id)).map seS := by
  induction ss with
  | nil => intro L id; simp [foldAddLedger]
  | cons s rest ih =>
    intro L id
    have hstep : foldAddLedger L (s :: rest) =
        foldAddLedger (ledgerAdd L s.team_id
          { start_time := s.start_time, end_time := s.end_time, type := s.type }) rest := rfl
    rw [hstep, ih]
    by_cases h : s.team_id = id
    · rw [h, ledgerGet_add_self]
      simp [h, seB, seS]
    · rw [ledgerGet_add_ne _ _ _ _ (fun hh => h hh.symm)]
      simp [h]

/-! ### Conflict-resolver lemmas -/

theorem resolve_foldl_snd_ge (t buffer : Nat) (bks : List Booking) :
    ∀ (c : Bool) (e : Nat),
      e ≤ (bks.foldl
        (fun (acc : Bool × Nat) bk =>
          if conflictB t buffer bk then
            (true, if acc.2 < bk.end_time + buffer then bk.end_time + buffer else acc.2)
          else acc) (c, e)).2 := by
  induction bks with
  | nil => intro c e; simp
  | cons bk rest ih =>
    intro c e
    simp only [List.foldl_cons]
    by_cases h : conflictB t buffer bk = true
    · simp only [h, if_true]
      by_cases h2 : e < bk.end_time + buffer
      · simp only [h2, if_true]
        exact le_trans (le_of_lt h2) (ih true (bk.end_time + buffer))
      · simp only [h2, if_false]
        exact ih true e
    · simp only [h, if_false]
      exact ih c e

theorem resolveStart_ge (t buffer : Nat) (bks : List Booking) :
    t ≤ resolveStart t buffer bks := by
  simp only [resolveStart]
  split
  · exact resolve_foldl_snd_ge t buffer bks false t
  · exact le_refl t

theorem resolve_foldl_snd_fixed (t buffer : Nat) (bks : List Booking)
    (hall : ∀ bk ∈ bks, bk.end_time + buffer ≤ t) :
    ∀ (c : Bool),
      (bks.foldl
        (fun (acc : Bool × Nat) bk =>
          if conflictB t buffer bk then
            (true, if acc.2 < bk.end_time + buffer then bk.end_time + buffer else acc.2)
          else acc) (c, t)).2 = t := by
  induction bks with
  | nil => intro c; simp
  | cons bk rest ih =>
    intro c
    have hbk := hall bk (List.mem_cons_self bk rest)
    have hrest : ∀ b2 ∈ rest, b2.end_time + buffer ≤ t :=
      fun b2 hb2 => hall b2 (List.mem_cons_of_mem bk hb2)
    simp only [List.foldl_cons]
    by_cases h : conflictB t buffer bk = true
    · have hnlt : ¬ t < bk.end_time + buffer := not_lt.mpr hbk
      simp only [h, if_true, hnlt, if_false]
      exact ih hrest true
    · simp only [h, if_false]
      exact ih hrest c

theorem resolveStart_of_clear (t buffer : Nat) (bks : List Booking)
    (hall : ∀ bk ∈ bks, bk.end_time + buffer ≤ t) :
    resolveStart t buffer bks = t := by
  simp only [resolveStart]
  split
  · exact resolve_foldl_snd_fixed t buffer bks hall false
  · rfl

theorem resolveStart_singleton (t buffer : Nat) (bk : Booking) :
    resolveStart t buffer [bk] =
      if conflictB t buffer bk then
        (if t < bk.end_time + buffer then bk.end_time + buffer else t)
      else t := by
  by_cases h : conflictB t buffer bk = true <;>
    simp [resolveStart, List.foldl_cons, List.foldl_nil, h]

theorem resolveStart_singleton_clears (t buffer : Nat) (bk : Booking)
    (hstart : bk.start_time < t) :
    bk.end_time + buffer ≤ resolveStart t buffer [bk] := by
  rw [resolveStart_singleton]
  by_cases h : conflictB t buffer bk = true
  · simp only [h, if_true]
    by_cases h2 : t < bk.end_time + buffer
    · simp [h2]
    · simp only [h2, if_false]
      exact not_lt.mp h2
  · simp only [h, if_false]
    have h3 : ¬ (t ≤ bk.end_time + buffer ∧ bk.start_time ≤ t + JUDGING_DURATION + buffer) := by
      intro hcon
      exact h (by simp [conflictB, hcon.1, hcon.2])
    rcases not_and_or.mp h3 with h4 | h4
    · exact le_of_lt (not_le.mp h4)
    · exact absurd (by omega : bk.start_time ≤ t + JUDGING_DURATION + buffer) h4

/-! ### The category-phase scheduling invariant -/

/-- Pairwise buffer-separation of bookings. -/
def SepB (buffer : Nat) (b1 b2 : Booking) : Prop := SepP buffer (seB b1) (seB b2)

/-- Invariant carried through the category phase: every team's ledger is
pairwise buffer-separated, all its bookings start before the cursor, and
either every booking ends at least `buffer` before the cursor or the team has
a single booking (which happens only on phase entry, where each team has at
most its one general session). -/
def InvL (buffer : Nat) (L : Ledger) (t : Nat) : Prop :=
  ∀ id : Nat,
    List.Pairwise (SepB buffer) (ledgerGet L id) ∧
    (∀ bk ∈ ledgerGet L id, bk.start_time < t) ∧
    ((∀ bk ∈ ledgerGet L id, bk.end_time + buffer ≤ t) ∨ ∃ bk, ledgerGet L id = [bk])

theorem resolveStart_clears (buffer t : Nat) (bks : List Booking)
    (hstarts : ∀ bk ∈ bks, bk.start_time < t)
    (hcase : (∀ bk ∈ bks, bk.end_time + buffer ≤ t) ∨ ∃ bk, bks = [bk]) :
    ∀ bk ∈ bks, bk.end_time + buffer ≤ resolveStart t buffer bks := by
  rcases hcase with hall | ⟨b1, hb1⟩
  · intro bk hbk
    exact le_trans (hall bk hbk) (resolveStart_ge t buffer bks)
  · subst hb1
    intro bk hbk
    rw [List.mem_singleton] at hbk
    subst hbk
    exact resolveStart_singleton_clears t buffer bk (hstarts bk (List.mem_singleton_self bk))

theorem schedule_one_inv (buffer t : Nat) (L : Ledger) (id : Nat) (ty : String)
    (hInv : InvL buffer L t) :
    t ≤ resolveStart t buffer (ledgerGet L id) ∧
    (∀ bk ∈ ledgerGet L id, bk.end_time + buffer ≤ resolveStart t buffer (ledgerGet L id)) ∧
    InvL buffer
      (ledgerAdd L id
        { start_time := resolveStart t buffer (ledgerGet L id),
          end_time := resolveStart t buffer (ledgerGet L id) + JUDGING_DURATION, type := ty })
      (resolveStart t buffer (ledgerGet L id) + JUDGING_DURATION + buffer) := by
  obtain ⟨hpw, hstarts, hcase⟩ := hInv id
  have hge := resolveStart_ge t buffer (ledgerGet L id)
  have hclear := resolveStart_clears buffer t (ledgerGet L id) hstarts hcase
  refine ⟨hge, hclear, ?_⟩
  intro id2
  by_cases h2 : id2 = id
  · subst h2
    rw [ledgerGet_add_self]
    refine ⟨?_, ?_, ?_⟩
    · rw [List.pairwise_append]
      refine ⟨hpw, List.pairwise_singleton _ _, ?_⟩
      intro b1 hb1 b2 hb2
      rw [List.mem_singleton] at hb2
      subst hb2
      simp only [SepB, SepP, seB]
      exact Or.inl (hclear b1 hb1)
    · intro bk hbk
      rcases List.mem_append.mp hbk with hmem | hmem
      · have h3 := hstarts bk hmem
        omega
      · rw [List.mem_singleton] at hmem
        subst hmem
        simp only [JUDGING_DURATION]
        omega
    · left
      intro bk hbk
      rcases List.mem_append.mp hbk with hmem | hmem
      · have h3 := hclear bk hmem
        omega
      · rw [List.mem_singleton] at hmem
        subst hmem
        simp
  · rw [ledgerGet_add_ne _ _ _ _ h2]
    obtain ⟨hpw2, hstarts2, hcase2⟩ := hInv id2
    refine ⟨hpw2, ?_, ?_⟩
    · intro bk hbk
      have h3 := hstarts2 bk hbk
      omega
    · rcases hcase2 with hall | hsing
      · left
        intro bk hbk
        have h3 := hall bk hbk
        omega
      · right
        exact hsing

theorem nextCursor_nil (t buffer : Nat) : nextCursor [] t buffer = t := rfl

theorem nextCursor_cons_ne_nil (x : Session) (ss : List Session) (t t2 buffer : Nat)
    (h : ss ≠ []) : nextCursor (x :: ss) t buffer = nextCursor ss t2 buffer := by
  cases ss with
  | nil => exact absurd rfl h
  | cons y ys => simp [nextCursor, List.getLast?]

/-- Full specification of the shared per-team scheduling loop: the invariant
is preserved, the cursor only advances, the output ledger records exactly the
emitted sessions, sessions mirror the input teams, have fixed duration, and
the final cursor sits one buffer after the last session. -/
theorem scheduleTeamsLoop_spec (ty : String) (catsOf : Team → List String) (buffer : Nat) :
    ∀ (ts : List Team) (t : Nat) (L : Ledger), InvL buffer L t →
      ∀ ss L2 t2, scheduleTeamsLoop ty catsOf ts t L buffer = (ss, L2, t2) →
        InvL buffer L2 t2 ∧ t ≤ t2 ∧
        L2 = foldAddLedger L ss ∧
        ss.map (fun s => (s.team_id, s.team_name, s.categories, s.type)) =
          ts.map (fun tm => (tm.id, tm.name, catsOf tm, ty)) ∧
        (∀ s ∈ ss, s.end_time = s.start_time + JUDGING_DURATION) ∧
        t2 = nextCursor ss t buffer := by
  intro ts
  induction ts with
  | nil =>
    intro t L hInv ss L2 t2 h
    simp only [scheduleTeamsLoop, Prod.mk.injEq] at h
    obtain ⟨rfl, rfl, rfl⟩ := h
    exact ⟨hInv, le_refl t, rfl, by simp, by simp, rfl⟩
  | cons team rest ih =>
    intro t L hInv ss L2 t2 h
    obtain ⟨hge, hclear, hInv2⟩ := schedule_one_inv buffer t L team.id ty hInv
    obtain ⟨ss1, L1, t1, hrec⟩ : ∃ a b c,
        scheduleTeamsLoop ty catsOf rest
          (resolveStart t buffer (ledgerGet L team.id) + JUDGING_DURATION + buffer)
          (ledgerAdd L team.id
            { start_time := resolveStart t buffer (ledgerGet L team.id),
              end_time := resolveStart t buffer (ledgerGet L team.id) + JUDGING_DURATION,
              type := ty }) buffer = (a, b, c) :=
      ⟨_, _, _, rfl⟩
    simp only [scheduleTeamsLoop, hrec, Prod.mk.injEq] at h
    obtain ⟨rfl, rfl, rfl⟩ := h
    obtain ⟨hI, hle, hfold, hmap, hdur, hcur⟩ := ih _ _ hInv2 ss1 L1 t1 hrec
    refine ⟨hI, by omega, ?_, ?_, ?_, ?_⟩
    · rw [hfold]
      rfl
    · simp [hmap]
    · intro s hs
      rcases List.mem_cons.mp hs with rfl | hs2
      · rfl
      · exact hdur s hs2
    · by_cases hnil : ss1 = []
      · subst hnil
        have hrest : rest = [] := by
          have hlen := congrArg List.length hmap
          simp at hlen
          exact List.length_eq_zero.mp hlen.symm
        subst hrest
        simp only [scheduleTeamsLoop, Prod.mk.injEq] at hrec
        obtain ⟨_, _, rfl⟩ := hrec
        simp [nextCursor, List.getLast?]
      · rw [nextCursor_cons_ne_nil _ _ _
          (resolveStart t buffer (ledgerGet L team.id) + JUDGING_DURATION + buffer) _ hnil]
        exact hcur

/-- Specification of the per-category loop. -/
theorem runCats_spec (teams : List Team) (buffer : Nat) :
    ∀ (cats : List String) (t : Nat) (L : Ledger), InvL buffer L t →
      ∀ tracks L2, runCats teams cats t L buffer = (tracks, L2) →
        (∃ t2, t ≤ t2 ∧ InvL buffer L2 t2) ∧
        tracks.map Prod.fst = cats ∧
        L2 = foldAddLedger L (tracks.map Prod.snd).flatten ∧
        (∀ p ∈ tracks, ∀ s ∈ p.2, s.end_time = s.start_time + JUDGING_DURATION) := by
  intro cats
  induction cats with
  | nil =>
    intro t L hInv tracks L2 h
    simp only [runCats, Prod.mk.injEq] at h
    obtain ⟨rfl, rfl⟩ := h
    exact ⟨⟨t, le_refl t, hInv⟩, rfl, rfl, by simp⟩
  | cons c rest ih =>
    intro t L hInv tracks L2 h
    by_cases hct : (categoryTeams teams c).isEmpty = true
    · obtain ⟨tr1, L1, hrec⟩ : ∃ a b, runCats teams rest t L buffer = (a, b) := ⟨_, _, rfl⟩
      simp only [runCats, hct, if_true, hrec, Prod.mk.injEq] at h
      obtain ⟨rfl, rfl⟩ := h
      obtain ⟨hex, hkeys, hfold, hdur⟩ := ih t L hInv tr1 L1 hrec
      refine ⟨hex, by simp [hkeys], by simpa using hfold, ?_⟩
      intro p hp
      rcases List.mem_cons.mp hp with rfl | hp2
      · simp
      · exact hdur p hp2
    · obtain ⟨ss1, L1, t1, hrec1⟩ : ∃ a b c2,
          scheduleTeamsLoop c (fun _ => [c]) (categoryTeams teams c) t L buffer = (a, b, c2) :=
        ⟨_, _, _, rfl⟩
      obtain ⟨hI1, hle1, hfold1, hmap1, hdur1, hcur1⟩ :=
        scheduleTeamsLoop_spec c (fun _ => [c]) buffer (categoryTeams teams c) t L hInv
          ss1 L1 t1 hrec1
      obtain ⟨tr1, L2x, hrec2⟩ : ∃ a b,
          runCats teams rest (nextCursor ss1 t buffer) L1 buffer = (a, b) := ⟨_, _, rfl⟩
      simp only [runCats, hct, if_false, hrec1, hrec2, Prod.mk.injEq] at h
      obtain ⟨rfl, rfl⟩ := h
      rw [← hcur1] at hrec2
      obtain ⟨⟨t2, hle2, hI2⟩, hkeys, hfold, hdur⟩ := ih t1 L1 hI1 tr1 _ hrec2
      refine ⟨⟨t2, by omega, hI2⟩, by simp [hkeys], ?_, ?_⟩
      · rw [hfold, hfold1]
        simp [foldAddLedger_append]
      · intro p hp
        rcases List.mem_cons.mp hp with rfl | hp2
        · exact hdur1
        · exact hdur p hp2

/-- Specification of `generate_category_schedules`. -/
theorem gcs_spec (teams : List Team) (buffer start : Nat) (L : Ledger)
    (hInv : InvL buffer L start) :
    ∀ tracks L2, generate_category_schedules teams start L buffer = (tracks, L2) →
      (∃ t2, InvL buffer L2 t2) ∧
      tracks.map Prod.fst = "MLH" :: get_categories_from_teams teams ∧
      L2 = foldAddLedger L (tracks.map Prod.snd).flatten ∧
      (∀ p ∈ tracks, ∀ s ∈ p.2, s.end_time = s.start_time + JUDGING_DURATION) := by
  intro tracks L2 h
  by_cases hm : (mlhTeams teams).isEmpty = true
  · obtain ⟨tr1, L1, hrec⟩ : ∃ a b,
        runCats teams (get_categories_from_teams teams) start L buffer = (a, b) := ⟨_, _, rfl⟩
    simp [generate_category_schedules, hm, hrec, Prod.mk.injEq] at h
    obtain ⟨rfl, rfl⟩ := h
    obtain ⟨⟨t2, _, hI⟩, hkeys, hfold, hdur⟩ :=
      runCats_spec teams buffer (get_categories_from_teams teams) start L hInv tr1 L1 hrec
    refine ⟨⟨t2, hI⟩, by simp [hkeys], by simpa using hfold, ?_⟩
    intro p hp
    rcases List.mem_cons.mp hp with rfl | hp2
    · simp
    · exact hdur p hp2
  · obtain ⟨ss1, L1, t1, hrec1⟩ : ∃ a b c2,
        scheduleTeamsLoop "MLH" mlhCatsOf (mlhTeams teams) start L buffer = (a, b, c2) :=
      ⟨_, _, _, rfl⟩
    obtain ⟨hI1, hle1, hfold1, hmap1, hdur1, hcur1⟩ :=
      scheduleTeamsLoop_spec "MLH" mlhCatsOf buffer (mlhTeams teams) start L hInv
        ss1 L1 t1 hrec1
    obtain ⟨tr1, L2x, hrec2⟩ : ∃ a b,
        runCats teams (get_categories_from_teams teams) (nextCursor ss1 start buffer) L1 buffer =
          (a, b) := ⟨_, _, rfl⟩
    simp [generate_category_schedules, hm, hrec1, hrec2, Prod.mk.injEq] at h
    obtain ⟨rfl, rfl⟩ := h
    rw [← hcur1] at hrec2
    obtain ⟨⟨t2, _, hI2⟩, hkeys, hfold, hdur⟩ :=
      runCats_spec teams buffer (get_categories_from_teams teams) t1 L1 hI1 tr1 _ hrec2
    refine ⟨⟨t2, hI2⟩, by simp [hkeys], ?_, ?_⟩
    · rw [hfold, hfold1]
      simp [foldAddLedger_append]
    · intro p hp
      rcases List.mem_cons.mp hp with rfl | hp2
      · exact hdur1
      · exact hdur p hp2

/-! ### General-phase lemmas -/

theorem layOut_map_fields (ts : List Team) : ∀ (cur buffer : Nat),
    (layOut ts cur buffer).map (fun s => (s.team_id, s.team_name, s.categories, s.type)) =
      ts.map (fun tm => (tm.id, tm.name, tm.categories, "General")) := by
  induction ts with
  | nil => intro cur buffer; rfl
  | cons t rest ih => intro cur buffer; simp [layOut, ih]

theorem layOut_dur (ts : List Team) : ∀ (cur buffer : Nat),
    ∀ s ∈ layOut ts cur buffer, s.end_time = s.start_time + JUDGING_DURATION := by
  induction ts with
  | nil => intro cur buffer s hs; simp [layOut] at hs
  | cons t rest ih =>
    intro cur buffer s hs
    rcases List.mem_cons.mp hs with rfl | hs2
    · rfl
    · exact ih _ _ s hs2

theorem layOut_getElem (ts : List Team) :
    ∀ (cur buffer i : Nat) (h : i < (layOut ts cur buffer).length),
      (layOut ts cur buffer)[i].start_time = cur + i * (JUDGING_DURATION + buffer) ∧
      (layOut ts cur buffer)[i].end_time =
        (layOut ts cur buffer)[i].start_time + JUDGING_DURATION := by
  induction ts with
  | nil => intro cur buffer i h; simp [layOut] at h
  | cons t rest ih =>
    intro cur buffer i h
    cases i with
    | zero => exact ⟨by simp [layOut], by simp [layOut]⟩
    | succ j =>
      have h2 : j < (layOut rest (cur + JUDGING_DURATION + buffer) buffer).length := by
        simpa [layOut] using h
      have h3 := ih (cur + JUDGING_DURATION + buffer) buffer j h2
      refine ⟨?_, ?_⟩
      · show (layOut rest (cur + JUDGING_DURATION + buffer) buffer)[j].start_time = _
        rw [h3.1]
        ring
      · exact h3.2

theorem layOut_ne_nil (t : Team) (rest : List Team) (cur buffer : Nat) :
    layOut (t :: rest) cur buffer ≠ [] := by
  simp [layOut]

/-- The per-room "latest end" used to build `room_end_times`. -/
def lastEndOf (ss : List Session) (d : Nat) : Nat :=
  match ss.getLast? with
  | some l => l.end_time
  | none => d

theorem lastEndOf_cons_ne_nil (x : Session) (ss : List Session) (d d2 : Nat) (h : ss ≠ []) :
    lastEndOf (x :: ss) d = lastEndOf ss d2 := by
  cases ss with
  | nil => exact absurd rfl h
  | cons y ys => simp [lastEndOf, List.getLast?]

theorem layOut_le_last (ts : List Team) : ∀ (cur buffer : Nat),
    cur ≤ lastEndOf (layOut ts cur buffer) cur ∧
    ∀ s ∈ layOut ts cur buffer, s.end_time ≤ lastEndOf (layOut ts cur buffer) cur := by
  induction ts with
  | nil =>
    intro cur buffer
    exact ⟨le_refl cur, by simp [layOut]⟩
  | cons t rest ih =>
    intro cur buffer
    cases rest with
    | nil =>
      refine ⟨by simp [layOut, lastEndOf, List.getLast?, JUDGING_DURATION], ?_⟩
      intro s hs
      rcases List.mem_cons.mp hs with rfl | hs2
      · simp [layOut, lastEndOf, List.getLast?]
      · simp [layOut] at hs2
    | cons t2 rest2 =>
      have hne := layOut_ne_nil t2 rest2 (cur + JUDGING_DURATION + buffer) buffer
      have ih2 := ih (cur + JUDGING_DURATION + buffer) buffer
      have hrw : lastEndOf (layOut (t :: t2 :: rest2) cur buffer) cur =
          lastEndOf (layOut (t2 :: rest2) (cur + JUDGING_DURATION + buffer) buffer)
            (cur + JUDGING_DURATION + buffer) := by
        show lastEndOf (_ :: layOut (t2 :: rest2) (cur + JUDGING_DURATION + buffer) buffer) cur = _
        exact lastEndOf_cons_ne_nil _ _ _ _ hne
      rw [hrw]
      refine ⟨le_trans (by omega) ih2.1, ?_⟩
      intro s hs
      rcases List.mem_cons.mp hs with rfl | hs2
      · exact le_trans (Nat.le_add_right _ _) ih2.1
      · exact ih2.2 s hs2

theorem foldl_max_le (l : List Nat) : ∀ d, d ≤ l.foldl max d ∧ ∀ x ∈ l, x ≤ l.foldl max d := by
  induction l with
  | nil => intro d; simp
  | cons a rest ih =>
    intro d
    refine ⟨le_trans (le_max_left d a) (ih (max d a)).1, ?_⟩
    intro x hx
    rcases List.mem_cons.mp hx with rfl | h2
    · exact le_trans (le_max_right d x) (ih (max d x)).1
    · exact (ih (max d a)).2 x h2

/-- Basic structure of a successful `generate_general_schedule` run. -/
theorem ggs_spec (teams : List Team) (start buffer n : Nat) :
    ∀ sched E L, generate_general_schedule teams start buffer n = Except.ok (sched, E, L) →
      (∃ A, roomAssignments teams n = Except.ok A ∧
        sched = A.map (fun p => (p.1, layOut p.2 start buffer))) ∧
      L = foldAddLedger [] (sched.map Prod.snd).flatten ∧
      (∀ s ∈ (sched.map Prod.snd).flatten,
        s.end_time ≤ E ∧ s.end_time = s.start_time + JUDGING_DURATION) := by
  intro sched E L h
  cases hra : roomAssignments teams n with
  | error e => simp [generate_general_schedule, hra] at h
  | ok A =>
    simp only [generate_general_schedule, hra, Prod.mk.injEq] at h
    obtain ⟨rfl, rfl, rfl⟩ := h
    refine ⟨⟨A, rfl, rfl⟩, rfl, ?_⟩
    intro s hs
    rw [List.mem_flatten] at hs
    obtain ⟨track, htrack, hmem⟩ := hs
    rw [List.mem_map] at htrack
    obtain ⟨p, hp, rfl⟩ := htrack
    rw [List.mem_map] at hp
    obtain ⟨q, hq, rfl⟩ := hp
    have hlast := (layOut_le_last q.2 start buffer).2 s hmem
    have hdur := layOut_dur q.2 start buffer s hmem
    refine ⟨le_trans hlast ?_, hdur⟩
    have hmem2 : lastEndOf (layOut q.2 start buffer) start ∈
        (A.map (fun p => (p.1, layOut p.2 start buffer))).map (fun p =>
          match p.2.getLast? with
          | some s => s.end_time
          | none => start) := by
      rw [List.mem_map]
      exact ⟨(q.1, layOut q.2 start buffer), List.mem_map.mpr ⟨q, hq, rfl⟩, rfl⟩
    exact (foldl_max_le _ start).2 _ hmem2

/-! ### Counting teams across room assignments -/

/-- How often a team id occurs in a team list. -/
def idCount (ts : List Team) (id : Nat) : Nat := (ts.filter (fun tm => tm.id = id)).length

/-- Total id-occurrences across all room assignments. -/
def sumCount (A : List (Nat × List Team)) (id : Nat) : Nat :=
  (A.map (fun p => idCount p.2 id)).sum

theorem idCount_append (a b : List Team) (id : Nat) :
    idCount (a ++ b) id = idCount a id + idCount b id := by
  simp [idCount, List.filter_append]

theorem idCount_take_drop (pool : List Team) (c : Nat) (id : Nat) :
    idCount (pool.take c) id + idCount (pool.drop c) id = idCount pool id := by
  rw [← idCount_append, List.take_append_drop]

theorem assocGetD_set_ne (A : List (Nat × α)) (k k2 : Nat) (v : α) (d : α) (h : k2 ≠ k) :
    assocGetD (assocSet A k v) k2 d = assocGetD A k2 d := by
  have hne : ¬ k = k2 := fun hh => h hh.symm
  induction A with
  | nil => simp [assocSet, assocGetD, hne]
  | cons p rest ih =>
    by_cases hp : p.1 = k
    · have hp2 : ¬ p.1 = k2 := by rw [hp]; exact hne
      simp [assocSet, assocGetD, hp, hp2, hne]
    · by_cases hq : p.1 = k2 <;> simp [assocSet, assocGetD, hp, hq, hne, h, ih]

theorem sumCount_assocSet (A : List (Nat × List Team)) (k : Nat) (v : List Team) (id : Nat)
    (h : assocGetD A k [] = []) :
    sumCount (assocSet A k v) id = sumCount A id + idCount v id := by
  induction A with
  | nil => simp [assocSet, sumCount, Nat.add_comm]
  | cons p rest ih =>
    by_cases hp : p.1 = k
    · have hempty : p.2 = [] := by simpa [assocGetD, hp] using h
      simp [assocSet, hp, sumCount, hempty, idCount]
      omega
    · have h2 : assocGetD rest k [] = [] := by simpa [assocGetD, hp] using h
      have ih2 := ih h2
      simp only [assocSet, hp, if_false, sumCount, List.map_cons, List.sum_cons] at *
      omega

theorem initRooms_getD (n k : Nat) : assocGetD (initRooms n) k [] = [] := by
  have h : ∀ A : List (Nat × List Team), (∀ p ∈ A, p.2 = []) →
      assocGetD A k ([] : List Team) = [] := by
    intro A
    induction A with
    | nil => intro _; rfl
    | cons p rest ih =>
      intro hall
      by_cases hp : p.1 = k
      · simpa [assocGetD, hp] using hall p (List.mem_cons_self p rest)
      · exact by simpa [assocGetD, hp] using ih (fun q hq => hall q (List.mem_cons_of_mem p hq))
  apply h
  intro p hp
  rw [initRooms, List.mem_map] at hp
  obtain ⟨i, _, rfl⟩ := hp
  rfl

theorem sumCount_initRooms (n id : Nat) : sumCount (initRooms n) id = 0 := by
  rw [sumCount, initRooms]
  induction (List.range n) with
  | nil => rfl
  | cons a rest ih => simpa [idCount] using ih

theorem sumCount_distribute1 (id : Nat) : ∀ (rooms : List Nat) (A : List (Nat × List Team))
    (pool : List Team) (q r i : Nat),
    rooms.Nodup → (∀ room ∈ rooms, assocGetD A room [] = []) →
    sumCount (distribute1 A rooms pool q r i) id ≤ sumCount A id + idCount pool id := by
  intro rooms
  induction rooms with
  | nil =>
    intro A pool q r i _ _
    simp [distribute1]
  | cons room rest ih =>
    intro A pool q r i hnd hall
    have hroom : assocGetD A room [] = [] := hall room (List.mem_cons_self room rest)
    have hnd2 := (List.nodup_cons.mp hnd).2
    have hnotmem := (List.nodup_cons.mp hnd).1
    have hall2 : ∀ room2 ∈ rest,
        assocGetD (assocSet A room (pool.take (q + (if i < r then 1 else 0)))) room2 [] = [] := by
      intro room2 hr2
      rw [assocGetD_set_ne _ _ _ _ _ (fun hh => hnotmem (by rw [← hh]; exact hr2))]
      exact hall room2 (List.mem_cons_of_mem room hr2)
    have hstep := sumCount_assocSet A room (pool.take (q + (if i < r then 1 else 0))) id hroom
    have hrec := ih (assocSet A room (pool.take (q + (if i < r then 1 else 0))))
      (pool.drop (q + (if i < r then 1 else 0))) q r (i + 1) hnd2 hall2
    have htd := idCount_take_drop pool (q + (if i < r then 1 else 0)) id
    have hgoal : distribute1 A (room :: rest) pool q r i =
        distribute1 (assocSet A room (pool.take (q + (if i < r then 1 else 0)))) rest
          (pool.drop (q + (if i < r then 1 else 0))) q r (i + 1) := by
      simp only [distribute1]
    rw [hgoal]
    omega

theorem sumCount_distribute2 (id : Nat) : ∀ (rooms : List Nat) (A : List (Nat × List Team))
    (pool : List Team) (base rem : Nat),
    rooms.Nodup → (∀ room ∈ rooms, room ≠ 6 → assocGetD A room [] = []) →
    sumCount (distribute2 A rooms pool base rem) id ≤ sumCount A id + idCount pool id := by
  intro rooms
  induction rooms with
  | nil =>
    intro A pool base rem _ _
    simp [distribute2]
  | cons room rest ih =>
    intro A pool base rem hnd hall
    have hnd2 := (List.nodup_cons.mp hnd).2
    have hnotmem := (List.nodup_cons.mp hnd).1
    by_cases hskip : room = 6 ∧ assocGetD A 6 ([] : List Team) ≠ []
    · have hall2 : ∀ room2 ∈ rest, room2 ≠ 6 → assocGetD A room2 [] = [] :=
        fun room2 hr2 h6 => hall room2 (List.mem_cons_of_mem room hr2) h6
      have hrec := ih A pool base rem hnd2 hall2
      have hgoal : distribute2 A (room :: rest) pool base rem =
          distribute2 A rest pool base rem := by
        simp only [distribute2]
        rw [if_pos hskip]
      rw [hgoal]
      exact hrec
    · have hroom : assocGetD A room [] = [] := by
        by_cases h6 : room = 6
        · subst h6
          rcases not_and_or.mp hskip with hc | hc
          · exact absurd rfl hc
          · exact not_not.mp hc
        · exact hall room (List.mem_cons_self room rest) h6
      have hv : assocGetD A room ([] : List Team) ++ pool.take (base + (if 0 < rem then 1 else 0)) =
          pool.take (base + (if 0 < rem then 1 else 0)) := by
        rw [hroom]
        rfl
      have hall2 : ∀ room2 ∈ rest, room2 ≠ 6 →
          assocGetD (assocSet A room (assocGetD A room ([] : List Team) ++
            pool.take (base + (if 0 < rem then 1 else 0)))) room2 [] = [] := by
        intro room2 hr2 h6
        rw [assocGetD_set_ne _ _ _ _ _ (fun hh => hnotmem (by rw [← hh]; exact hr2))]
        exact hall room2 (List.mem_cons_of_mem room hr2) h6
      have hstep := sumCount_assocSet A room (assocGetD A room ([] : List Team) ++
        pool.take (base + (if 0 < rem then 1 else 0))) id hroom
      have hrec := ih (assocSet A room (assocGetD A room ([] : List Team) ++
          pool.take (base + (if 0 < rem then 1 else 0))))
        (pool.drop (base + (if 0 < rem then 1 else 0))) base
        (rem - (if 0 < rem then 1 else 0)) hnd2 hall2
      have htd := idCount_take_drop pool (base + (if 0 < rem then 1 else 0)) id
      have hcnt : idCount (assocGetD A room ([] : List Team) ++
          pool.take (base + (if 0 < rem then 1 else 0))) id =
          idCount (pool.take (base + (if 0 < rem then 1 else 0))) id := by
        rw [hv]
      have hgoal : distribute2 A (room :: rest) pool base rem =
          distribute2 (assocSet A room (assocGetD A room ([] : List Team) ++
            pool.take (base + (if 0 < rem then 1 else 0)))) rest
            (pool.drop (base + (if 0 < rem then 1 else 0))) base
            (rem - (if 0 < rem then 1 else 0)) := by
        simp only [distribute2]
        rw [if_neg hskip]
      rw [hgoal]
      omega

theorem idCount_filter_split (p : Team → Bool) (l : List Team) (id : Nat) :
    idCount (l.filter p) id + idCount (l.filter (fun x => !p x)) id = idCount l id := by
  induction l with
  | nil => rfl
  | cons t rest ih =>
    simp only [idCount, List.filter_cons] at *
    by_cases hp : p t = true <;> by_cases hid : t.id = id <;>
      simp [hp, hid] at ih ⊢ <;> omega

theorem idCount_split (teams : List Team) (id : Nat) :
    idCount (mlhTeams teams) id + idCount (nonMlhTeams teams) id = idCount teams id :=
  idCount_filter_split hasMLH teams id

theorem roomAssignments_count (teams : List Team) (n : Nat) :
    ∀ A, roomAssignments teams n = Except.ok A →
      ∀ id, sumCount A id ≤ idCount teams id := by
  intro A hA id
  have hsplit := idCount_split teams id
  by_cases hb : 6 ≤ (mlhTeams teams).length
  · have h0 : assocGetD (initRooms n) 6 ([] : List Team) = [] := initRooms_getD n 6
    have hstep := sumCount_assocSet (initRooms n) 6 (mlhTeams teams) id h0
    have hall : ∀ room ∈ [1, 2, 3, 4, 5],
        assocGetD (assocSet (initRooms n) 6 (mlhTeams teams)) room [] = [] := by
      intro room hr
      have h6 : room ≠ 6 := by
        simp only [List.mem_cons, List.not_mem_nil, or_false] at hr
        omega
      rw [assocGetD_set_ne _ _ _ _ _ h6]
      exact initRooms_getD n room
    have hnd : ([1, 2, 3, 4, 5] : List Nat).Nodup := by decide
    have hrec := sumCount_distribute1 id [1, 2, 3, 4, 5]
      (assocSet (initRooms n) 6 (mlhTeams teams)) (nonMlhTeams teams)
      ((nonMlhTeams teams).length / 5) ((nonMlhTeams teams).length % 5) 0 hnd hall
    have hA2 : A = distribute1 (assocSet (initRooms n) 6 (mlhTeams teams)) [1, 2, 3, 4, 5]
        (nonMlhTeams teams) ((nonMlhTeams teams).length / 5)
        ((nonMlhTeams teams).length % 5) 0 := by
      simp only [roomAssignments, hb, if_true, Except.ok.injEq] at hA
      exact hA.symm
    have hinit := sumCount_initRooms n id
    rw [hA2]
    omega
  · by_cases hn : n = 0
    · simp [roomAssignments, hb, hn] at hA
    · have h0 : assocGetD (initRooms n) 6 ([] : List Team) = [] := initRooms_getD n 6
      have hstep := sumCount_assocSet (initRooms n) 6 (mlhTeams teams) id h0
      have hall : ∀ room ∈ List.range' 1 n, room ≠ 6 →
          assocGetD (assocSet (initRooms n) 6 (mlhTeams teams)) room [] = [] := by
        intro room _ h6
        rw [assocGetD_set_ne _ _ _ _ _ h6]
        exact initRooms_getD n room
      have hnd : (List.range' 1 n).Nodup := List.nodup_range' 1 n
      have hrec := sumCount_distribute2 id (List.range' 1 n)
        (assocSet (initRooms n) 6 (mlhTeams teams)) (nonMlhTeams teams)
        ((nonMlhTeams teams).length / n) ((nonMlhTeams teams).length % n) hnd hall
      have hA2 : A = distribute2 (assocSet (initRooms n) 6 (mlhTeams teams)) (List.range' 1 n)
          (nonMlhTeams teams) ((nonMlhTeams teams).length / n)
          ((nonMlhTeams teams).length % n) := by
        simp only [roomAssignments, hb, hn, if_false, Except.ok.injEq] at hA
        exact hA.symm
      have hinit := sumCount_initRooms n id
      rw [hA2]
      omega

/-! ### Sessions per team in the general schedule -/

/-- How often a team id occurs among sessions. -/
def sidCount (ss : List Session) (id : Nat) : Nat :=
  (ss.filter (fun s => s.team_id = id)).length

theorem layOut_sidCount (ts : List Team) : ∀ (cur buffer id : Nat),
    sidCount (layOut ts cur buffer) id = idCount ts id := by
  induction ts with
  | nil => intro _ _ _; rfl
  | cons t rest ih =>
    intro cur buffer id
    have ih2 := ih (cur + JUDGING_DURATION + buffer) buffer id
    by_cases h : t.id = id <;>
      simp [layOut, sidCount, idCount, List.filter_cons, h] <;>
      simpa [sidCount, idCount] using ih2

theorem sidCount_flatten (ll : List (List Session)) (id : Nat) :
    sidCount ll.flatten id = (ll.map (fun l => sidCount l id)).sum := by
  rw [sidCount, ← List.countP_eq_length_filter, List.countP_flatten]
  congr 1
  apply List.map_congr_left
  intro l _
  rw [sidCount, ← List.countP_eq_length_filter]

theorem nat_beq_eq_decide (a b : Nat) : (a == b) = decide (a = b) := by
  by_cases h : a = b <;> simp [h]

theorem idCount_le_one_of_uniqueIds (teams : List Team) (h : uniqueIds teams) (id : Nat) :
    idCount teams id ≤ 1 := by
  have hc := List.nodup_iff_count_le_one.mp h id
  rw [List.count_eq_countP, List.countP_map] at hc
  have hcongr : List.countP ((fun x => x == id) ∘ Team.id) teams =
      List.countP (fun tm => decide (tm.id = id)) teams := by
    apply List.countP_congr
    intro tm _
    simp [Function.comp, nat_beq_eq_decide]
  rw [hcongr] at hc
  rw [idCount, ← List.countP_eq_length_filter]
  exact hc

theorem ggs_sidCount_le (teams : List Team) (start buffer n : Nat) (hids : uniqueIds teams) :
    ∀ sched E L, generate_general_schedule teams start buffer n = Except.ok (sched, E, L) →
      ∀ id, sidCount ((sched.map Prod.snd).flatten) id ≤ 1 := by
  intro sched E L h id
  obtain ⟨⟨A, hra, rfl⟩, _, _⟩ := ggs_spec teams start buffer n sched E L h
  rw [sidCount_flatten]
  have hmaps : (((A.map (fun p => (p.1, layOut p.2 start buffer))).map Prod.snd).map
      (fun l => sidCount l id)) = A.map (fun p => idCount p.2 id) := by
    rw [List.map_map, List.map_map]
    apply List.map_congr_left
    intro p _
    exact layOut_sidCount p.2 start buffer id
  rw [hmaps]
  exact le_trans (roomAssignments_count teams n A hra id)
    (idCount_le_one_of_uniqueIds teams hids id)

/-! ### Transfer of pairwise facts from filtered lists -/

theorem pairwise_of_pairwise_filter {α : Type} {R : α → α → Prop} (p : α → Bool) :
    ∀ l : List α, List.Pairwise R (l.filter p) →
      List.Pairwise (fun a b => p a = true → p b = true → R a b) l := by
  intro l
  induction l with
  | nil => intro _; exact List.Pairwise.nil
  | cons x rest ih =>
    intro h
    by_cases hx : p x = true
    · rw [List.filter_cons_of_pos hx] at h
      obtain ⟨h1, h2⟩ := List.pairwise_cons.mp h
      refine List.pairwise_cons.mpr ⟨?_, ih h2⟩
      intro b hb _ hpb
      exact h1 b (List.mem_filter.mpr ⟨hb, hpb⟩)
    · rw [List.filter_cons_of_neg hx] at h
      refine List.pairwise_cons.mpr ⟨?_, ih h⟩
      intro b _ hpx _
      exact absurd hpx hx

/-! ### The invariant holds on entry to the category phase -/

theorem general_entry_inv (teams : List Team) (start buffer n : Nat) (hids : uniqueIds teams) :
    ∀ sched E L, generate_general_schedule teams start buffer n = Except.ok (sched, E, L) →
      InvL buffer L (E + 30) := by
  intro sched E L h id
  obtain ⟨⟨A, hra, hsched⟩, hled, hbound⟩ := ggs_spec teams start buffer n sched E L h
  have hcorr : (ledgerGet L id).map seB =
      (((sched.map Prod.snd).flatten).filter (fun s => s.team_id = id)).map seS := by
    rw [hled]
    have := foldAddLedger_get ((sched.map Prod.snd).flatten) [] id
    simpa [ledgerGet] using this
  have hlen : (ledgerGet L id).length ≤ 1 := by
    have hc := congrArg List.length hcorr
    rw [List.length_map, List.length_map] at hc
    rw [hc]
    exact ggs_sidCount_le teams start buffer n hids sched E L h id
  cases hl : ledgerGet L id with
  | nil => exact ⟨List.Pairwise.nil, by simp, Or.inl (by simp)⟩
  | cons bk tail =>
    have htail : tail = [] := by
      rw [hl, List.length_cons] at hlen
      have h0 : tail.length = 0 := by omega
      exact List.length_eq_zero.mp h0
    subst htail
    rw [hl] at hcorr
    have hexists : ∃ s ∈ (sched.map Prod.snd).flatten,
        s.team_id = id ∧ seS s = seB bk := by
      cases hflt : ((sched.map Prod.snd).flatten).filter (fun s => s.team_id = id) with
      | nil => rw [hflt] at hcorr; simp at hcorr
      | cons s rest =>
        rw [hflt] at hcorr
        simp only [List.map_cons, List.map_cons, List.cons.injEq] at hcorr
        have hmem : s ∈ (sched.map Prod.snd).flatten ∧ decide (s.team_id = id) = true := by
          have := List.mem_filter.mp (hflt ▸ List.mem_cons_self s rest)
          exact this
        exact ⟨s, hmem.1, of_decide_eq_true hmem.2, hcorr.1.symm⟩
    obtain ⟨s, hsmem, _, hse⟩ := hexists
    obtain ⟨hsE, hsdur⟩ := hbound s hsmem
    have hbkstart : bk.start_time = s.start_time ∧ bk.end_time = s.end_time := by
      have h1 := congrArg Prod.fst hse
      have h2 := congrArg Prod.snd hse
      exact ⟨h1.symm, h2.symm⟩
    refine ⟨List.pairwise_singleton _ _, ?_, Or.inr ⟨bk, rfl⟩⟩
    intro bk2 hbk2
    rw [List.mem_singleton] at hbk2
    subst hbk2
    have : bk2.start_time + JUDGING_DURATION ≤ E := by
      rw [hbkstart.1, ← hsdur]
      exact hsE
    omega

/-! ### C1: no team is double-booked -/

theorem generate_schedule_ledger (teams : List Team) (sstr : String) (buffer n : Nat)
    (hids : uniqueIds teams) :
    ∀ sched stats, generate_schedule teams sstr buffer n = Except.ok (sched, stats) →
      ∃ L2, (∃ t2, InvL buffer L2 t2) ∧
        (∀ id, (ledgerGet L2 id).map seB =
          ((allSessions sched).filter (fun s => s.team_id = id)).map seS) := by
  intro sched stats h
  cases hp : parseStartTime sstr with
  | none => simp [generate_schedule, hp] at h
  | some t0 =>
    cases hg : generate_general_schedule teams t0 buffer n with
    | error e => simp [generate_schedule, hp, hg] at h
    | ok g =>
      obtain ⟨gsched, E, L⟩ := g
      obtain ⟨tracks, L2, hgcs⟩ : ∃ a b,
          generate_category_schedules teams (E + 30) L buffer = (a, b) := ⟨_, _, rfl⟩
      simp only [generate_schedule, hp, hg, hgcs, Prod.mk.injEq, Except.ok.injEq] at h
      obtain ⟨rfl, _⟩ := h
      obtain ⟨⟨A, hra, hsched⟩, hled, hbound⟩ := ggs_spec teams t0 buffer n gsched E L hg
      have hentry := general_entry_inv teams t0 buffer n hids gsched E L hg
      obtain ⟨hex, hkeys, hfold, hdur⟩ := gcs_spec teams buffer (E + 30) L hentry tracks L2 hgcs
      refine ⟨L2, hex, ?_⟩
      intro id
      have hfull : L2 = foldAddLedger []
          ((gsched.map Prod.snd).flatten ++ (tracks.map Prod.snd).flatten) := by
        rw [foldAddLedger_append, ← hled, ← hfold]
      rw [hfull]
      have := foldAddLedger_get
        ((gsched.map Prod.snd).flatten ++ (tracks.map Prod.snd).flatten) [] id
      simpa [ledgerGet, allSessions] using this

/-- C1. For every team list (under the core's unique-team-id input
contract) and every configuration, in the `Schedule` returned by
`generate_schedule` no two distinct sessions belonging to the same team
overlap in time with the configured buffer applied as padding: for any two
sessions at distinct positions across all room tracks and category tracks
that carry the same team id, one of them ends, buffer included, no later than
the other starts. -/
theorem c1_no_team_session_overlap (teams : List Team) (sstr : String) (buffer n : Nat)
    (sched : Schedule) (stats : Stats)
    (hids : uniqueIds teams)
    (hok : generate_schedule teams sstr buffer n = Except.ok (sched, stats)) :
    List.Pairwise
      (fun s1 s2 => s1.team_id = s2.team_id →
        s1.end_time + buffer ≤ s2.start_time ∨ s2.end_time + buffer ≤ s1.start_time)
      (allSessions sched) := by
  obtain ⟨L2, ⟨t2, hInv⟩, hcorr⟩ :=
    generate_schedule_ledger teams sstr buffer n hids sched stats hok
  rw [List.pairwise_iff_getElem]
  intro i j hi hj hij hsame
  have hpw := (hInv ((allSessions sched)[i].team_id)).1
  have hpwB : List.Pairwise (fun x y => SepP buffer x y)
      ((ledgerGet L2 ((allSessions sched)[i].team_id)).map seB) :=
    hpw.map seB (fun a b hab => hab)
  rw [hcorr ((allSessions sched)[i].team_id)] at hpwB
  have hpwF := List.pairwise_map.mp hpwB
  have hpwAll := pairwise_of_pairwise_filter
    (fun s => decide (s.team_id = (allSessions sched)[i].team_id)) (allSessions sched) hpwF
  have hR := (List.pairwise_iff_getElem.mp hpwAll) i j hi hj hij
  have h1 : decide ((allSessions sched)[i].team_id = (allSessions sched)[i].team_id) = true :=
    decide_eq_true rfl
  have h2 : decide ((allSessions sched)[j].team_id = (allSessions sched)[i].team_id) = true :=
    decide_eq_true hsame.symm
  have := hR h1 h2
  simpa [SepP, seS] using this

/-! ### Extractors for concrete runs -/

/-- The schedule of a successful run (default on error). -/
def okSchedule (r : Except SchedErr (Schedule × Stats)) : Schedule :=
  match r with
  | Except.ok p => p.1
  | Except.error _ => default

/-- The statistics of a successful run (default on error). -/
def okStats (r : Except SchedErr (Schedule × Stats)) : Stats :=
  match r with
  | Except.ok p => p.2
  | Except.error _ => default

/-- The room schedule of a successful general run (empty on error). -/
def okGeneral (r : Except SchedErr (List (Nat × List Session) × Nat × Ledger)) :
    List (Nat × List Session) :=
  match r with
  | Except.ok g => g.1
  | Except.error _ => []

/-- Demo input for the C1 witness: team 1 is in a sponsor (MLH) category and a
regular category, team 2 shares the regular category. -/
def demoTeamsC1 : List Team :=
  [{ id := 1, name := "alpha", categories := ["Best Design", "Best GenAI"] },
   { id := 2, name := "beta", categories := ["Best Design"] }]

theorem c1_no_team_session_overlap_witness :
    List.Pairwise
      (fun s1 s2 => s1.team_id = s2.team_id →
        s1.end_time + 2 ≤ s2.start_time ∨ s2.end_time + 2 ≤ s1.start_time)
      (allSessions (okSchedule (generate_schedule demoTeamsC1 "2025-05-17 10:00" 2 6))) :=
  c1_no_team_session_overlap demoTeamsC1 "2025-05-17 10:00" 2 6
    (okSchedule (generate_schedule demoTeamsC1 "2025-05-17 10:00" 2 6))
    (okStats (generate_schedule demoTeamsC1 "2025-05-17 10:00" 2 6))
    (by unfold uniqueIds; decide) (by rfl)

/-! ### C2: the conflict resolver -/

theorem ite_lt_eq_max (e x : Nat) : (if e < x then x else e) = max e x := by
  by_cases h : e < x
  · rw [if_pos h, Nat.max_eq_right (Nat.le_of_lt h)]
  · rw [if_neg h, Nat.max_eq_left (Nat.le_of_not_lt h)]

theorem resolve_fold_eq (t buffer : Nat) : ∀ (bks : List Booking) (c : Bool) (e : Nat),
    (c = false → e = t) →
    (if (bks.foldl
        (fun (acc : Bool × Nat) bk =>
          if conflictB t buffer bk then
            (true, if acc.2 < bk.end_time + buffer then bk.end_time + buffer else acc.2)
          else acc) (c, e)).1 then
      (bks.foldl
        (fun (acc : Bool × Nat) bk =>
          if conflictB t buffer bk then
            (true, if acc.2 < bk.end_time + buffer then bk.end_time + buffer else acc.2)
          else acc) (c, e)).2
    else t) =
    bks.foldl
      (fun acc bk => if conflictB t buffer bk then max acc (bk.end_time + buffer) else acc) e := by
  intro bks
  induction bks with
  | nil =>
    intro c e hce
    cases c
    · simp [hce rfl]
    · simp
  | cons bk rest ih =>
    intro c e hce
    by_cases h : conflictB t buffer bk = true
    · simp only [List.foldl_cons, h, if_true]
      rw [ite_lt_eq_max]
      exact ih true (max e (bk.end_time + buffer)) (fun hh => Bool.noConfusion hh)
    · simp only [List.foldl_cons, h, if_false]
      exact ih c e hce

/-- C2 (amended). The conflict resolver is a single pass over the team's
bookings at the originally proposed start: each booking that conflicts with
the proposal (by the buffered overlap test `conflictB`) contributes its end
time *plus* the buffer, and the resolver returns the maximum of the proposal
and these contributions.  It does not rescan after moving the candidate, so
the returned start is not in general conflict-free. -/
theorem c2_resolver_single_pass_max (t buffer : Nat) (bks : List Booking) :
    resolveStart t buffer bks =
      bks.foldl
        (fun acc bk => if conflictB t buffer bk then max acc (bk.end_time + buffer) else acc)
        t := by
  have h := resolve_fold_eq t buffer bks false t (fun _ => rfl)
  simpa [resolveStart] using h

/-- C2 counterexample. With bookings `[0, 8]` and `[19, 27]`, buffer 2 and
proposed start 0, the code returns 10 — which is the conflicting booking's end
*plus* the buffer (not its bare end time 8), and which still conflicts with
the second booking `[19, 27]` under the code's own buffered overlap test.  So
the resolver neither pushes to the bare end time nor restarts the scan, and
its result can conflict with the team's bookings. -/
theorem c2_counterexample :
    resolveStart 0 2 [{ start_time := 0, end_time := 8, type := "General" },
        { start_time := 19, end_time := 27, type := "General" }] = 10 ∧
    (10 : Nat) ≠ 8 ∧
    conflictB 10 2 { start_time := 19, end_time := 27, type := "General" } = true := by
  decide

/-! ### C3: teams are dropped from the general schedule -/

/-- The C3 failing input: one team with an MLH category followed by twelve
plain teams. -/
def demoTeamsC3 : List Team :=
  { id := 0, name := "m", categories := ["Best GenAI"] } ::
    (List.range 12).map (fun i => { id := i + 1, name := "t", categories := ["Web App"] })

/-- C3 (code bug). At the failing input — 13 teams with unique ids (one
MLH team and twelve others) and `num_rooms = 6` — the run succeeds but the
general schedule contains only 11 sessions: room 6 (holding the single MLH
team) is skipped by the distribution loop without reallocating its share, so
two teams are silently dropped and are never scheduled, contradicting the
claim that the number of sessions equals `len(teams)`. -/
theorem c3_general_schedule_drops_teams :
    demoTeamsC3.length = 13 ∧
    uniqueIds demoTeamsC3 ∧
    (generate_general_schedule demoTeamsC3 600 2 6).isOk = true ∧
    (((okGeneral (generate_general_schedule demoTeamsC3 600 2 6)).map Prod.snd).flatten).length
      = 11 := by
  refine ⟨by decide, by unfold uniqueIds; decide, by decide, by decide⟩

/-! ### C4: back-to-back room layout -/

theorem layOut_getD (ts : List Team) : ∀ (cur buffer i : Nat), i < ts.length →
    ((layOut ts cur buffer).getD i default).start_time = cur + i * (JUDGING_DURATION + buffer) ∧
    ((layOut ts cur buffer).getD i default).end_time =
      ((layOut ts cur buffer).getD i default).start_time + JUDGING_DURATION := by
  induction ts with
  | nil => intro cur buffer i h; simp at h
  | cons t rest ih =>
    intro cur buffer i h
    cases i with
    | zero => exact ⟨by simp [layOut], by simp [layOut]⟩
    | succ j =>
      have h2 : j < rest.length := by simpa using h
      have h3 := ih (cur + JUDGING_DURATION + buffer) buffer j h2
      refine ⟨?_, ?_⟩
      · show ((layOut rest (cur + JUDGING_DURATION + buffer) buffer).getD j default).start_time = _
        rw [h3.1]
        ring
      · exact h3.2

/-- The C4 scenario input: twelve plain (non-MLH) teams. -/
def demoTeamsC4 : List Team :=
  (List.range 12).map (fun i => { id := i + 1, name := "t", categories := ["Web App"] })

/-- C4. In every room track of a successful `generate_general_schedule`
run, session `i` starts exactly at `start + i * (JUDGING_DURATION + buffer)`
and ends `JUDGING_DURATION` later — back-to-back layout with
`duration + buffer` spacing, no gaps and no overlaps.  In the spec scenario
(12 teams, 6 rooms, buffer 2, duration 8, start 10:00 = minute 600) every room
receives exactly two teams and every room's sessions are
`[10:00, 10:08)` and `[10:10, 10:18)` — in particular room 1's. -/
theorem c4_room_tracks_back_to_back :
    (∀ (teams : List Team) (start buffer n : Nat) (sched : List (Nat × List Session)) (E : Nat)
      (L : Ledger), generate_general_schedule teams start buffer n = Except.ok (sched, E, L) →
      ∀ p ∈ sched, ∀ i, i < p.2.length →
        (p.2.getD i default).start_time = start + i * (JUDGING_DURATION + buffer) ∧
        (p.2.getD i default).end_time = (p.2.getD i default).start_time + JUDGING_DURATION) ∧
    (okGeneral (generate_general_schedule demoTeamsC4 600 2 6)).map
        (fun p => (p.1, p.2.map seS)) =
      [(1, [(600, 608), (610, 618)]), (2, [(600, 608), (610, 618)]),
       (3, [(600, 608), (610, 618)]), (4, [(600, 608), (610, 618)]),
       (5, [(600, 608), (610, 618)]), (6, [(600, 608), (610, 618)])] := by
  constructor
  · intro teams start buffer n sched E L h p hp i hi
    obtain ⟨⟨A, hra, rfl⟩, _, _⟩ := ggs_spec teams start buffer n sched E L h
    rw [List.mem_map] at hp
    obtain ⟨q, hq, rfl⟩ := hp
    have hlen : (layOut q.2 start buffer).length = q.2.length := by
      have := congrArg List.length (layOut_map_fields q.2 start buffer)
      simpa using this
    exact layOut_getD q.2 start buffer i (by rw [← hlen]; exact hi)
  · decide

/-- Extractor: the general end time of a successful general run. -/
def okGeneralEnd (r : Except SchedErr (List (Nat × List Session) × Nat × Ledger)) : Nat :=
  match r with
  | Except.ok g => g.2.1
  | Except.error _ => 0

/-- Extractor: the booking ledger of a successful general run. -/
def okLedger (r : Except SchedErr (List (Nat × List Session) × Nat × Ledger)) : Ledger :=
  match r with
  | Except.ok g => g.2.2
  | Except.error _ => []

/-- A second scenario input (seven teams, buffer 3) used to witness C4's
quantified part; room 1 receives two teams. -/
def demoTeamsC4W : List Team :=
  (List.range 7).map (fun i => { id := i + 20, name := "w", categories := ["Web App"] })

theorem c4_room_tracks_back_to_back_witness :
    ((((okGeneral (generate_general_schedule demoTeamsC4W 600 3 6)).headD
        (0, [])).2.getD 1 default).start_time = 600 + 1 * (JUDGING_DURATION + 3)) ∧
    ((((okGeneral (generate_general_schedule demoTeamsC4W 600 3 6)).headD
        (0, [])).2.getD 1 default).end_time =
      (((okGeneral (generate_general_schedule demoTeamsC4W 600 3 6)).headD
        (0, [])).2.getD 1 default).start_time + JUDGING_DURATION) :=
  c4_room_tracks_back_to_back.1 demoTeamsC4W 600 3 6
    (okGeneral (generate_general_schedule demoTeamsC4W 600 3 6))
    (okGeneralEnd (generate_general_schedule demoTeamsC4W 600 3 6))
    (okLedger (generate_general_schedule demoTeamsC4W 600 3 6))
    (by rfl)
    ((okGeneral (generate_general_schedule demoTeamsC4W 600 3 6)).headD (0, []))
    (by decide) 1 (by decide)

/-! ### C5: routing of MLH teams -/

theorem assocGetD_set_self (A : List (Nat × α)) (k : Nat) (v : α) (d : α) :
    assocGetD (assocSet A k v) k d = v := by
  induction A with
  | nil => simp [assocSet, assocGetD]
  | cons p rest ih =>
    by_cases hp : p.1 = k
    · simp [assocSet, assocGetD, hp]
    · simp [assocSet, assocGetD, hp, ih]

theorem distribute1_getD_not_mem (id6 : Nat) : ∀ (rooms : List Nat)
    (A : List (Nat × List Team)) (pool : List Team) (q r i : Nat), id6 ∉ rooms →
    assocGetD (distribute1 A rooms pool q r i) id6 [] = assocGetD A id6 [] := by
  intro rooms
  induction rooms with
  | nil => intro A pool q r i _; simp [distribute1]
  | cons room rest ih =>
    intro A pool q r i hmem
    have h1 : id6 ≠ room := fun hh => hmem (hh ▸ List.mem_cons_self room rest)
    have h2 : id6 ∉ rest := fun hh => hmem (List.mem_cons_of_mem room hh)
    have hgoal : distribute1 A (room :: rest) pool q r i =
        distribute1 (assocSet A room (pool.take (q + (if i < r then 1 else 0)))) rest
          (pool.drop (q + (if i < r then 1 else 0))) q r (i + 1) := by
      simp only [distribute1]
    rw [hgoal, ih _ _ _ _ _ h2, assocGetD_set_ne _ _ _ _ _ h1]

theorem distribute2_getD6 : ∀ (rooms : List Nat) (A : List (Nat × List Team))
    (pool : List Team) (base rem : Nat), assocGetD A 6 [] ≠ [] →
    assocGetD (distribute2 A rooms pool base rem) 6 [] = assocGetD A 6 [] := by
  intro rooms
  induction rooms with
  | nil => intro A pool base rem _; simp [distribute2]
  | cons room rest ih =>
    intro A pool base rem hne
    by_cases hskip : room = 6 ∧ assocGetD A 6 ([] : List Team) ≠ []
    · have hgoal : distribute2 A (room :: rest) pool base rem =
          distribute2 A rest pool base rem := by
        simp only [distribute2]
        rw [if_pos hskip]
      rw [hgoal]
      exact ih A pool base rem hne
    · have h6 : room ≠ 6 := by
        intro hh
        exact hskip ⟨hh, hne⟩
      have hgoal : distribute2 A (room :: rest) pool base rem =
          distribute2 (assocSet A room (assocGetD A room ([] : List Team) ++
            pool.take (base + (if 0 < rem then 1 else 0)))) rest
            (pool.drop (base + (if 0 < rem then 1 else 0))) base
            (rem - (if 0 < rem then 1 else 0)) := by
        simp only [distribute2]
        rw [if_neg hskip]
      have hpres : assocGetD (assocSet A room (assocGetD A room ([] : List Team) ++
          pool.take (base + (if 0 < rem then 1 else 0)))) 6 [] = assocGetD A 6 [] :=
        assocGetD_set_ne _ _ _ _ _ (fun hh => h6 hh.symm)
      rw [hgoal, ih _ _ _ _ (by rw [hpres]; exact hne), hpres]

theorem assocGetD_map_layOut (start buffer : Nat) (A : List (Nat × List Team)) (k : Nat) :
    assocGetD (A.map (fun p => (p.1, layOut p.2 start buffer))) k [] =
      layOut (assocGetD A k []) start buffer := by
  induction A with
  | nil => simp [assocGetD, layOut]
  | cons p rest ih =>
    by_cases hp : p.1 = k
    · simp [assocGetD, hp]
    · simp [assocGetD, hp, ih]

/-- C5 (amended). Teams whose category set meets `MLH_CATEGORIES` are
always routed to room 6 — a hard-coded room number, not "the highest-numbered
room" — whenever at least one such team exists: room 6's track is exactly the
back-to-back layout of the MLH teams, both above and below the
six-team threshold.  Below the threshold the MLH teams are *not* folded back
into the general pool. -/
theorem c5_mlh_teams_always_room6 (teams : List Team) (start buffer n : Nat)
    (sched : List (Nat × List Session)) (E : Nat) (L : Ledger)
    (hmlh : mlhTeams teams ≠ [])
    (hok : generate_general_schedule teams start buffer n = Except.ok (sched, E, L)) :
    assocGetD sched 6 [] = layOut (mlhTeams teams) start buffer := by
  obtain ⟨⟨A, hra, rfl⟩, _, _⟩ := ggs_spec teams start buffer n sched E L hok
  rw [assocGetD_map_layOut]
  have hA6 : assocGetD A 6 [] = mlhTeams teams := by
    by_cases hb : 6 ≤ (mlhTeams teams).length
    · have hA2 : A = distribute1 (assocSet (initRooms n) 6 (mlhTeams teams)) [1, 2, 3, 4, 5]
          (nonMlhTeams teams) ((nonMlhTeams teams).length / 5)
          ((nonMlhTeams teams).length % 5) 0 := by
        simp only [roomAssignments, hb, if_true, Except.ok.injEq] at hra
        exact hra.symm
      rw [hA2, distribute1_getD_not_mem 6 [1, 2, 3, 4, 5] _ _ _ _ _ (by decide)]
      exact assocGetD_set_self _ _ _ _
    · by_cases hn : n = 0
      · simp [roomAssignments, hb, hn] at hra
      · have hA2 : A = distribute2 (assocSet (initRooms n) 6 (mlhTeams teams))
            (List.range' 1 n) (nonMlhTeams teams) ((nonMlhTeams teams).length / n)
            ((nonMlhTeams teams).length % n) := by
          simp only [roomAssignments, hb, hn, if_false, Except.ok.injEq] at hra
          exact hra.symm
        have hset : assocGetD (assocSet (initRooms n) 6 (mlhTeams teams)) 6 [] =
            mlhTeams teams := assocGetD_set_self _ _ _ _
        rw [hA2, distribute2_getD6 _ _ _ _ _ (by rw [hset]; exact hmlh), hset]
  rw [hA6]

/-- The C5 counterexample input: one MLH team (id 1) and one plain team
(id 2). -/
def demoTeamsC5 : List Team :=
  [{ id := 1, name := "m", categories := ["Best GenAI"] },
   { id := 2, name := "p", categories := ["Web App"] }]

/-- C5 counterexample. With a single MLH team — far below the policy
threshold of 6 — the claim says the MLH team is folded back into the general
round-robin pool and distributed together with all other teams (which, with 2
teams over 6 lanes, puts teams 1 and 2 into rooms 1 and 2).  The code instead
keeps the MLH team in room 6: room 1 holds team 2, room 2 is empty, and room 6
holds team 1. -/
theorem c5_counterexample :
    (mlhTeams demoTeamsC5).length = 1 ∧
    (okGeneral (generate_general_schedule demoTeamsC5 600 8 6)).map
        (fun p => (p.1, p.2.map (fun s => s.team_id))) =
      [(1, [2]), (2, []), (3, []), (4, []), (5, []), (6, [1])] := by
  refine ⟨by decide, by decide⟩

/-- Witness input for C5: two MLH teams and one plain team. -/
def demoTeamsC5W : List Team :=
  [{ id := 3, name := "m1", categories := ["Best .tech"] },
   { id := 4, name := "m2", categories := ["Best Use of MongoDB"] },
   { id := 5, name := "p", categories := ["Web App"] }]

theorem c5_mlh_teams_always_room6_witness :
    assocGetD (okGeneral (generate_general_schedule demoTeamsC5W 700 4 6)) 6 [] =
      layOut (mlhTeams demoTeamsC5W) 700 4 :=
  c5_mlh_teams_always_room6 demoTeamsC5W 700 4 6
    (okGeneral (generate_general_schedule demoTeamsC5W 700 4 6))
    (okGeneralEnd (generate_general_schedule demoTeamsC5W 700 4 6))
    (okLedger (generate_general_schedule demoTeamsC5W 700 4 6))
    (by decide) (by rfl)

/-! ### C6: session durations -/

theorem scheduleTeamsLoop_dur (ty : String) (catsOf : Team → List String) (buffer : Nat) :
    ∀ (ts : List Team) (t : Nat) (L : Ledger),
      ∀ s ∈ (scheduleTeamsLoop ty catsOf ts t L buffer).1,
        s.end_time = s.start_time + JUDGING_DURATION := by
  intro ts
  induction ts with
  | nil => intro t L s hs; simp [scheduleTeamsLoop] at hs
  | cons team rest ih =>
    intro t L s hs
    simp only [scheduleTeamsLoop] at hs
    rcases List.mem_cons.mp hs with rfl | hs2
    · rfl
    · exact ih _ _ s hs2

theorem runCats_dur (teams : List Team) (buffer : Nat) :
    ∀ (cats : List String) (t : Nat) (L : Ledger),
      ∀ p ∈ (runCats teams cats t L buffer).1, ∀ s ∈ p.2,
        s.end_time = s.start_time + JUDGING_DURATION := by
  intro cats
  induction cats with
  | nil => intro t L p hp; simp [runCats] at hp
  | cons c rest ih =>
    intro t L p hp s hs
    by_cases hct : (categoryTeams teams c).isEmpty = true
    · simp only [runCats, hct, if_true] at hp
      rcases List.mem_cons.mp hp with rfl | hp2
      · simp at hs
      · exact ih _ _ p hp2 s hs
    · simp only [runCats, hct, if_false] at hp
      rcases List.mem_cons.mp hp with rfl | hp2
      · exact scheduleTeamsLoop_dur c (fun _ => [c]) buffer (categoryTeams teams c) t L s hs
      · exact ih _ _ p hp2 s hs

theorem gcs_dur (teams : List Team) (buffer start : Nat) (L : Ledger) :
    ∀ tracks L2, generate_category_schedules teams start L buffer = (tracks, L2) →
      ∀ p ∈ tracks, ∀ s ∈ p.2, s.end_time = s.start_time + JUDGING_DURATION := by
  intro tracks L2 h p hp s hs
  by_cases hm : (mlhTeams teams).isEmpty = true
  · obtain ⟨tr1, L1, hrec⟩ : ∃ a b,
        runCats teams (get_categories_from_teams teams) start L buffer = (a, b) := ⟨_, _, rfl⟩
    simp [generate_category_schedules, hm, hrec, Prod.mk.injEq] at h
    obtain ⟨rfl, rfl⟩ := h
    rcases List.mem_cons.mp hp with rfl | hp2
    · simp at hs
    · have := runCats_dur teams buffer (get_categories_from_teams teams) start L p
      rw [hrec] at this
      exact this hp2 s hs
  · obtain ⟨ss1, L1, t1, hrec1⟩ : ∃ a b c2,
        scheduleTeamsLoop "MLH" mlhCatsOf (mlhTeams teams) start L buffer = (a, b, c2) :=
      ⟨_, _, _, rfl⟩
    obtain ⟨tr1, L2x, hrec2⟩ : ∃ a b,
        runCats teams (get_categories_from_teams teams) (nextCursor ss1 start buffer) L1 buffer =
          (a, b) := ⟨_, _, rfl⟩
    simp [generate_category_schedules, hm, hrec1, hrec2, Prod.mk.injEq] at h
    obtain ⟨rfl, rfl⟩ := h
    rcases List.mem_cons.mp hp with rfl | hp2
    · have := scheduleTeamsLoop_dur "MLH" mlhCatsOf buffer (mlhTeams teams) start L
      rw [hrec1] at this
      exact this s hs
    · have := runCats_dur teams buffer (get_categories_from_teams teams)
        (nextCursor ss1 start buffer) L1 p
      rw [hrec2] at this
      exact this hp2 s hs

/-- The C6 counterexample input: one team in one ordinary category. -/
def demoTeamsC6 : List Team :=
  [{ id := 1, name := "d", categories := ["Best Design"] }]

/-- C6 counterexample. For a team in category "Best Design", the general
session and the category session both last exactly 8 minutes
(`JUDGING_DURATION` is used in both phases), refuting the claim that the
category phase uses a different, category-specific duration. -/
theorem c6_counterexample :
    (okSchedule (generate_schedule demoTeamsC6 "2025-05-17 10:00" 2 6)).categories.map
        (fun p => (p.1, p.2.map (fun s => s.end_time - s.start_time))) =
      [("MLH", []), ("Best Design", [8])] ∧
    (okSchedule (generate_schedule demoTeamsC6 "2025-05-17 10:00" 2 6)).general.map
        (fun p => p.2.map (fun s => s.end_time - s.start_time)) =
      [[8], [], [], [], [], []] := by
  refine ⟨by decide, by decide⟩

/-- C6 (amended). The session duration is the same fixed constant in both
phases: every session of a successful `generate_schedule` run — general and
category alike — has `end_time = start_time + JUDGING_DURATION` (8 minutes). -/
theorem c6_all_sessions_fixed_duration (teams : List Team) (sstr : String) (buffer n : Nat)
    (sched : Schedule) (stats : Stats)
    (hok : generate_schedule teams sstr buffer n = Except.ok (sched, stats)) :
    ∀ s ∈ allSessions sched, s.end_time = s.start_time + JUDGING_DURATION := by
  cases hp : parseStartTime sstr with
  | none => simp [generate_schedule, hp] at hok
  | some t0 =>
    cases hg : generate_general_schedule teams t0 buffer n with
    | error e => simp [generate_schedule, hp, hg] at hok
    | ok g =>
      obtain ⟨gsched, E, L⟩ := g
      obtain ⟨tracks, L2, hgcs⟩ : ∃ a b,
          generate_category_schedules teams (E + 30) L buffer = (a, b) := ⟨_, _, rfl⟩
      simp only [generate_schedule, hp, hg, hgcs, Prod.mk.injEq, Except.ok.injEq] at hok
      obtain ⟨rfl, _⟩ := hok
      obtain ⟨_, _, hbound⟩ := ggs_spec teams t0 buffer n gsched E L hg
      intro s hs
      rcases List.mem_append.mp hs with hmem | hmem
      · exact (hbound s hmem).2
      · rw [List.mem_flatten] at hmem
        obtain ⟨track, htrack, hsmem⟩ := hmem
        rw [List.mem_map] at htrack
        obtain ⟨p, hp2, rfl⟩ := htrack
        exact gcs_dur teams buffer (E + 30) L tracks L2 hgcs p hp2 s hsmem

/-- Witness input for the amended C6. -/
def demoTeamsC6W : List Team :=
  [{ id := 3, name := "w", categories := ["Game Dev"] }]

theorem c6_all_sessions_fixed_duration_witness :
    ((allSessions (okSchedule (generate_schedule demoTeamsC6W "2025-05-17 11:00" 5 6))).headD
        default).end_time =
      ((allSessions (okSchedule (generate_schedule demoTeamsC6W "2025-05-17 11:00" 5 6))).headD
        default).start_time + JUDGING_DURATION :=
  c6_all_sessions_fixed_duration demoTeamsC6W "2025-05-17 11:00" 5 6
    (okSchedule (generate_schedule demoTeamsC6W "2025-05-17 11:00" 5 6))
    (okStats (generate_schedule demoTeamsC6W "2025-05-17 11:00" 5 6))
    (by rfl)
    ((allSessions (okSchedule (generate_schedule demoTeamsC6W "2025-05-17 11:00" 5 6))).headD
      default)
    (by decide)

/-! ### C7: error behaviour of generate_schedule -/

/-- C7 counterexample. An empty team list does *not* abort the run:
`generate_schedule` completes and returns a schedule (with empty tracks),
refuting the claim that a fatal configuration error is surfaced exactly when
the room count is non-positive, the start time is unparsable, or the team
list is empty. -/
theorem c7_counterexample :
    (generate_schedule [] "2025-05-17 10:00" 8 6).isOk = true ∧
    (okStats (generate_schedule [] "2025-05-17 10:00" 8 6)).total_teams = 0 := by
  refine ⟨by decide, by decide⟩

/-- C7 (amended). `generate_schedule` performs no explicit validation.  A
run aborts with an exception exactly when the start-time string fails to parse
(`strptime` raises `ValueError`), or when `num_rooms` is zero *and* fewer than
six teams carry MLH categories (the division `len(non_mlh_teams) //
num_rooms` raises `ZeroDivisionError`; with at least six MLH teams that
branch is never reached and the run completes).  An empty team list is
accepted and produces an empty schedule. -/
theorem c7_abort_conditions (teams : List Team) (sstr : String) (buffer n : Nat) :
    (generate_schedule teams sstr buffer n).isOk = true ↔
      ((parseStartTime sstr).isSome = true ∧
        (n ≠ 0 ∨ 6 ≤ (mlhTeams teams).length)) := by
  cases hp : parseStartTime sstr with
  | none => simp [generate_schedule, hp, Except.isOk, Except.toBool]
  | some t0 =>
    by_cases hb : 6 ≤ (mlhTeams teams).length
    · simp [generate_schedule, hp, generate_general_schedule, roomAssignments, hb,
        Except.isOk, Except.toBool]
    · by_cases hn : n = 0
      · simp [generate_schedule, hp, generate_general_schedule, roomAssignments, hb, hn,
          Except.isOk, Except.toBool]
      · simp [generate_schedule, hp, generate_general_schedule, roomAssignments, hb, hn,
          Except.isOk, Except.toBool]

/-- Witness input for the amended C7: one plain team, three rooms. -/
def demoTeamsC7W : List Team :=
  [{ id := 11, name := "q", categories := ["Web App"] }]

theorem c7_abort_conditions_witness :
    (generate_schedule demoTeamsC7W "2025-05-17 09:30" 8 3).isOk = true :=
  (c7_abort_conditions demoTeamsC7W "2025-05-17 09:30" 8 3).mpr (by decide)

/-! ### C8: one aggregate session per MLH-eligible team -/

/-- The MLH aggregate track of a schedule (the first category track). -/
def mlhTrackOf (sched : Schedule) : List Session :=
  (sched.categories.headD ("MLH", [])).2

theorem sidCount_eq_idCount_of_map_eq (ss : List Session) (ts : List Team)
    (h : ss.map (fun s => s.team_id) = ts.map Team.id) (id : Nat) :
    sidCount ss id = idCount ts id := by
  rw [sidCount, idCount, ← List.countP_eq_length_filter, ← List.countP_eq_length_filter]
  have h2 := congrArg (List.countP (fun x => decide (x = id))) h
  rw [List.countP_map, List.countP_map] at h2
  simpa [Function.comp] using h2

theorem filter_of_fields_corr (catsOf : Team → List String) (ty : String) :
    ∀ (ts : List Team) (ss : List Session),
      ss.map (fun s => (s.team_id, s.team_name, s.categories, s.type)) =
        ts.map (fun tm => (tm.id, tm.name, catsOf tm, ty)) →
      ∀ team : Team, team ∈ ts → idCount ts team.id = 1 →
      ∃ s, ss.filter (fun x => x.team_id = team.id) = [s] ∧ s.categories = catsOf team := by
  intro ts
  induction ts with
  | nil => intro ss h team hmem _; simp at hmem
  | cons t rest ih =>
    intro ss h team hmem hcount
    cases ss with
    | nil => simp at h
    | cons s ss2 =>
      simp only [List.map_cons, List.cons.injEq] at h
      obtain ⟨hhead, htail⟩ := h
      have hsid : s.team_id = t.id := congrArg (fun q => q.1) hhead
      have hscats : s.categories = catsOf t := congrArg (fun q => q.2.2.1) hhead
      have hcorr2 : ss2.map (fun s => s.team_id) = rest.map Team.id := by
        have h3 := congrArg
          (List.map (fun q : Nat × String × List String × String => q.1)) htail
        rw [List.map_map, List.map_map] at h3
        simpa [Function.comp] using h3
      by_cases hid : t.id = team.id
      · have hteamt : team = t := by
          rcases List.mem_cons.mp hmem with h' | hmem2
          · exact h'
          · exfalso
            have h1 : 0 < idCount rest team.id := by
              rw [idCount]
              exact List.length_pos_of_mem
                (List.mem_filter.mpr ⟨hmem2, by simp⟩)
            have h2 : idCount (t :: rest) team.id = idCount rest team.id + 1 := by
              simp [idCount, List.filter_cons, hid]
            omega
        subst hteamt
        have h2 : idCount (team :: rest) team.id = idCount rest team.id + 1 := by
          simp [idCount, List.filter_cons, hid]
        have hzero : idCount rest team.id = 0 := by omega
        refine ⟨s, ?_, by rw [hscats]⟩
        rw [List.filter_cons_of_pos (by simp [hsid, hid])]
        have hnil : ss2.filter (fun x => x.team_id = team.id) = [] := by
          rw [← List.length_eq_zero]
          have := sidCount_eq_idCount_of_map_eq ss2 rest hcorr2 team.id
          rw [sidCount] at this
          omega
        rw [hnil]
      · have hmem2 : team ∈ rest := by
          rcases List.mem_cons.mp hmem with h' | hmem2
          · exact absurd (congrArg Team.id h').symm hid
          · exact hmem2
        have hcount2 : idCount rest team.id = 1 := by
          have h2 : idCount (t :: rest) team.id = idCount rest team.id := by
            simp [idCount, List.filter_cons, hid]
          omega
        obtain ⟨sres, hs1, hs2⟩ := ih ss2 htail team hmem2 hcount2
        refine ⟨sres, ?_, hs2⟩
        rw [List.filter_cons_of_neg (by simp [hsid, hid])]
        exact hs1

theorem gcs_mlh_track (teams : List Team) (buffer start : Nat) (L : Ledger)
    (hm : (mlhTeams teams).isEmpty = false) :
    ∀ tracks L2, generate_category_schedules teams start L buffer = (tracks, L2) →
      ∃ ss L1 t1 rest,
        scheduleTeamsLoop "MLH" mlhCatsOf (mlhTeams teams) start L buffer = (ss, L1, t1) ∧
        tracks = ("MLH", ss) :: rest := by
  intro tracks L2 h
  obtain ⟨ss1, L1, t1, hrec1⟩ : ∃ a b c2,
      scheduleTeamsLoop "MLH" mlhCatsOf (mlhTeams teams) start L buffer = (a, b, c2) :=
    ⟨_, _, _, rfl⟩
  obtain ⟨tr1, L2x, hrec2⟩ : ∃ a b,
      runCats teams (get_categories_from_teams teams) (nextCursor ss1 start buffer) L1 buffer =
        (a, b) := ⟨_, _, rfl⟩
  simp [generate_category_schedules, hm, hrec1, hrec2, Prod.mk.injEq] at h
  obtain ⟨rfl, rfl⟩ := h
  exact ⟨ss1, L1, t1, tr1, hrec1, rfl⟩

/-- C8. Every team whose category set meets at least two MLH sub-labels
receives exactly one aggregate MLH session (not one per sub-label), and that
single session's `categories` field records exactly the team's applicable
MLH sub-labels (in the order they appear in the team's category list). -/
theorem c8_single_aggregate_session (teams : List Team) (sstr : String) (buffer n : Nat)
    (sched : Schedule) (stats : Stats) (team : Team)
    (hids : uniqueIds teams)
    (hok : generate_schedule teams sstr buffer n = Except.ok (sched, stats))
    (hteam : team ∈ teams)
    (hcats : 2 ≤ (team.categories.filter (fun c => MLH_CATEGORIES.contains c)).length) :
    ∃ s : Session,
      (mlhTrackOf sched).filter (fun x => x.team_id = team.id) = [s] ∧
      s.categories = team.categories.filter (fun c => MLH_CATEGORIES.contains c) := by
  have hfilterpos : 0 < (team.categories.filter (fun c => MLH_CATEGORIES.contains c)).length := by
    omega
  obtain ⟨c, hc⟩ := List.exists_mem_of_length_pos hfilterpos
  obtain ⟨hcmem, hcml⟩ := List.mem_filter.mp hc
  have hhas : hasMLH team = true := by
    rw [hasMLH]
    exact List.any_eq_true.mpr ⟨c, hcmem, hcml⟩
  have hmm : team ∈ mlhTeams teams := List.mem_filter.mpr ⟨hteam, hhas⟩
  have hm : (mlhTeams teams).isEmpty = false := by
    cases hml : mlhTeams teams with
    | nil => rw [hml] at hmm; simp at hmm
    | cons a b => rfl
  cases hp : parseStartTime sstr with
  | none => simp [generate_schedule, hp] at hok
  | some t0 =>
    cases hg : generate_general_schedule teams t0 buffer n with
    | error e => simp [generate_schedule, hp, hg] at hok
    | ok g =>
      obtain ⟨gsched, E, L⟩ := g
      obtain ⟨tracks, L2, hgcs⟩ : ∃ a b,
          generate_category_schedules teams (E + 30) L buffer = (a, b) := ⟨_, _, rfl⟩
      simp only [generate_schedule, hp, hg, hgcs, Prod.mk.injEq, Except.ok.injEq] at hok
      obtain ⟨rfl, _⟩ := hok
      have hentry := general_entry_inv teams t0 buffer n hids gsched E L hg
      obtain ⟨ss, L1, t1, rest, hloop, htracks⟩ :=
        gcs_mlh_track teams buffer (E + 30) L hm tracks L2 hgcs
      obtain ⟨_, _, _, hmap, _, _⟩ :=
        scheduleTeamsLoop_spec "MLH" mlhCatsOf buffer (mlhTeams teams) (E + 30) L hentry
          ss L1 t1 hloop
      have hle : idCount (mlhTeams teams) team.id ≤ idCount teams team.id := by
        rw [idCount, idCount]
        exact List.Sublist.length_le (List.Sublist.filter _ (List.filter_sublist teams))
      have hge : 0 < idCount (mlhTeams teams) team.id := by
        rw [idCount]
        exact List.length_pos_of_mem (List.mem_filter.mpr ⟨hmm, by simp⟩)
      have h1 : idCount (mlhTeams teams) team.id = 1 := by
        have := idCount_le_one_of_uniqueIds teams hids team.id
        omega
      obtain ⟨s, hs1, hs2⟩ :=
        filter_of_fields_corr mlhCatsOf "MLH" (mlhTeams teams) ss hmap team hmm h1
      refine ⟨s, ?_, by rw [hs2]; rfl⟩
      have hmt : mlhTrackOf { general := gsched, categories := tracks } = ss := by
        rw [mlhTrackOf, htracks]
        rfl
      rw [hmt]
      exact hs1

/-- Witness input for C8: team 9 is eligible for two MLH sub-labels. -/
def demoTeamsC8W : List Team :=
  [{ id := 9, name := "z", categories := ["Best GenAI", "Best .tech"] }]

theorem c8_single_aggregate_session_witness :
    ((mlhTrackOf (okSchedule (generate_schedule demoTeamsC8W "2025-05-17 10:00" 2 6))).filter
        (fun x => x.team_id = 9)).length = 1 ∧
    ((mlhTrackOf (okSchedule (generate_schedule demoTeamsC8W "2025-05-17 10:00" 2 6))).filter
        (fun x => x.team_id = 9)).map (fun s => s.categories) =
      [["Best GenAI", "Best .tech"]] := by
  obtain ⟨s, hs1, hs2⟩ := c8_single_aggregate_session demoTeamsC8W "2025-05-17 10:00" 2 6
    (okSchedule (generate_schedule demoTeamsC8W "2025-05-17 10:00" 2 6))
    (okStats (generate_schedule demoTeamsC8W "2025-05-17 10:00" 2 6))
    { id := 9, name := "z", categories := ["Best GenAI", "Best .tech"] }
    (by unfold uniqueIds; decide) (by rfl) (by decide) (by decide)
  constructor
  · rw [hs1]
    rfl
  · rw [hs1, List.map_cons, hs2]
    decide

/-! ### C9: determinism -/

/-- C9. `generate_schedule` is deterministic: two invocations with equal
team lists and equal configuration (start string, buffer, room count) return
equal `Schedule` and `Statistics` structures.  In the embedding the scheduler
is a pure function of its inputs — the Python code reads no clock, no
randomness and no global state inside the allocators — so equal inputs give
equal outputs. -/
theorem c9_deterministic (teams1 teams2 : List Team) (s1 s2 : String) (b1 b2 n1 n2 : Nat)
    (ht : teams1 = teams2) (hs : s1 = s2) (hb : b1 = b2) (hn : n1 = n2) :
    generate_schedule teams1 s1 b1 n1 = generate_schedule teams2 s2 b2 n2 := by
  subst ht
  subst hs
  subst hb
  subst hn
  rfl

/-- Witness input for C9. -/
def demoTeamsC9W : List Team :=
  [{ id := 6, name := "r", categories := ["Best GenAI", "Robotics"] }]

theorem c9_deterministic_witness :
    generate_schedule demoTeamsC9W "2025-05-17 12:00" 4 6 =
      generate_schedule demoTeamsC9W "2025-05-17 12:00" 4 6 :=
  c9_deterministic demoTeamsC9W demoTeamsC9W "2025-05-17 12:00" "2025-05-17 12:00" 4 4 6 6
    rfl rfl rfl rfl

/-! ### C10: category processing order -/

/-- The non-MLH labels of all teams, in occurrence order (the collected
contents of the `all_categories` set before sorting). -/
def nonMlhLabels (teams : List Team) : List String :=
  (teams.map (fun t => t.categories.filter (fun c => !MLH_CATEGORIES.contains c))).flatten

theorem get_categories_eq (teams : List Team) :
    get_categories_from_teams teams =
      List.insertionSort (· ≤ ·) (nonMlhLabels teams).dedup := rfl

theorem runCats_keys (teams : List Team) (buffer : Nat) : ∀ (cats : List String) (t : Nat)
    (L : Ledger), (runCats teams cats t L buffer).1.map Prod.fst = cats := by
  intro cats
  induction cats with
  | nil => intro t L; rfl
  | cons c rest ih =>
    intro t L
    by_cases hct : (categoryTeams teams c).isEmpty = true <;>
      simp [runCats, hct, ih]

/-- C10. The category phase processes the aggregate MLH track first and
then the remaining categories in ascending lexicographic order of their label
strings: the keys of `generate_category_schedules` are `"MLH"` followed by
`get_categories_from_teams`, which is sorted (strictly, since it is
duplicate-free), contains exactly the non-MLH labels occurring in the teams,
and depends only on the *set* of labels — two team lists whose non-MLH label
sets agree (their deduplicated label lists are permutations) yield the same
category order, independently of the order in which categories appear in the
input. -/
theorem c10_category_order :
    (∀ (teams : List Team) (t : Nat) (L : Ledger) (buffer : Nat),
      (generate_category_schedules teams t L buffer).1.map Prod.fst =
        "MLH" :: get_categories_from_teams teams) ∧
    (∀ teams : List Team, List.Sorted (· < ·) (get_categories_from_teams teams)) ∧
    (∀ (teams : List Team) (x : String), x ∈ get_categories_from_teams teams ↔
      (x ∉ MLH_CATEGORIES ∧ ∃ tm ∈ teams, x ∈ tm.categories)) ∧
    (∀ t1 t2 : List Team, (nonMlhLabels t1).dedup.Perm (nonMlhLabels t2).dedup →
      get_categories_from_teams t1 = get_categories_from_teams t2) := by
  refine ⟨?_, ?_, ?_, ?_⟩
  · intro teams t L buffer
    by_cases hm : (mlhTeams teams).isEmpty = true <;>
      simp [generate_category_schedules, hm, runCats_keys]
  · intro teams
    rw [get_categories_eq]
    have hs := List.sorted_insertionSort (· ≤ · : String → String → Prop)
      (nonMlhLabels teams).dedup
    have hn : (List.insertionSort (· ≤ ·) (nonMlhLabels teams).dedup).Nodup :=
      (List.perm_insertionSort (· ≤ ·) (nonMlhLabels teams).dedup).nodup_iff.mpr
        (List.nodup_dedup _)
    exact hs.lt_of_le hn
  · intro teams x
    rw [get_categories_eq]
    rw [(List.perm_insertionSort (· ≤ ·) (nonMlhLabels teams).dedup).mem_iff,
      List.mem_dedup]
    rw [nonMlhLabels, List.mem_flatten]
    constructor
    · rintro ⟨l, hl, hx⟩
      rw [List.mem_map] at hl
      obtain ⟨tm, htm, rfl⟩ := hl
      obtain ⟨hx1, hx2⟩ := List.mem_filter.mp hx
      refine ⟨?_, tm, htm, hx1⟩
      intro hmem
      have hcontains : MLH_CATEGORIES.contains x = true := List.elem_eq_true_of_mem hmem
      rw [hcontains] at hx2
      simp at hx2
    · rintro ⟨hnotml, tm, htm, hx⟩
      refine ⟨tm.categories.filter (fun c => !MLH_CATEGORIES.contains c),
        List.mem_map.mpr ⟨tm, htm, rfl⟩, ?_⟩
      rw [List.mem_filter]
      refine ⟨hx, ?_⟩
      simp [hnotml]
  · intro t1 t2 hperm
    rw [get_categories_eq, get_categories_eq]
    have hp2 : List.Perm (List.insertionSort (· ≤ ·) (nonMlhLabels t1).dedup)
        (List.insertionSort (· ≤ ·) (nonMlhLabels t2).dedup) :=
      ((List.perm_insertionSort (· ≤ ·) (nonMlhLabels t1).dedup).trans hperm).trans
        (List.perm_insertionSort (· ≤ ·) (nonMlhLabels t2).dedup).symm
    exact List.eq_of_perm_of_sorted hp2
      (List.sorted_insertionSort (· ≤ · : String → String → Prop) (nonMlhLabels t1).dedup)
      (List.sorted_insertionSort (· ≤ · : String → String → Prop) (nonMlhLabels t2).dedup)

/-- Witness inputs for C10: the same label set supplied in different order and
multiplicity. -/
def demoTeamsC10a : List Team :=
  [{ id := 1, name := "x", categories := ["Alpha", "Best GenAI"] }]

def demoTeamsC10b : List Team :=
  [{ id := 2, name := "y", categories := ["Alpha"] },
   { id := 3, name := "z", categories := ["Alpha", "Alpha"] }]

theorem c10_category_order_witness :
    (generate_category_schedules demoTeamsC10a 100 [] 8).1.map Prod.fst =
      ["MLH", "Alpha"] ∧
    get_categories_from_teams demoTeamsC10a = get_categories_from_teams demoTeamsC10b := by
  constructor
  · rw [c10_category_order.1 demoTeamsC10a 100 [] 8]
    rfl
  · exact c10_category_order.2.2.2 demoTeamsC10a demoTeamsC10b (by decide)

end JudgingSched
